import Mathlib

/-!
Verification development for the tool-extension subsystem of
`anshulsawant/open-webui` (backend/open_webui: utils/plugin.py,
models/tools.py, routers/tools.py).

The Python source is shallowly embedded: text is `List Char` (Python `str`
operations mirrored as executable functions), records are structures whose
fields follow the SQLAlchemy/Pydantic models, the keyed record store is a
`List` of records with `find?` standing for `query(...).first()`, and the
dynamically executed tool/function modules (an external collaborator from
the point of view of these files) are abstracted as explicit parameters.
-/

namespace OpenWebui

/-! ## Python string primitives on `List Char` -/

/-- Python `str.replace(old, new)`: leftmost, non-overlapping occurrences of
`old` are replaced by `new`, scanning resuming after each inserted copy of
`new`.  (For nonempty `old`; the source only replaces nonempty patterns.) -/
def pyReplace (old new : List Char) : List Char → List Char
  | [] => []
  | c :: rest =>
    if h : old ≠ [] ∧ old.isPrefixOf (c :: rest) then
      new ++ pyReplace old new ((c :: rest).drop old.length)
    else
      c :: pyReplace old new rest
termination_by s => s.length
decreasing_by
  · have hpos : 0 < old.length := List.length_pos.mpr h.1
    simp only [List.length_drop, List.length_cons]
    omega
  · simp

/-- `containsSub p s` : does `p` occur as a contiguous sublist of `s`?
(Python `p in s`.) -/
def containsSub (p : List Char) : List Char → Bool
  | [] => p.isEmpty
  | c :: rest => p.isPrefixOf (c :: rest) || containsSub p rest

/-- Side conditions under which `pyReplace old new` can neither keep nor
create an occurrence of the pattern `p`: `p` does not occur in `new`, no
nonempty suffix of `new` is a prefix of `p`, no nonempty suffix of `p` is a
prefix of `new`, and `p` is no longer than `new`.  All four replacement
pairs of `replace_imports` satisfy this for every pattern (checked by
`decide`). -/
def safePattern (p old new : List Char) : Bool :=
  !p.isEmpty && !old.isEmpty && decide (p.length ≤ new.length) &&
  !(containsSub p new) &&
  ((List.range new.length).all fun k => !((new.drop k).isPrefixOf p)) &&
  ((List.range p.length).all fun j => !((p.drop j).isPrefixOf new))

/-- The fixed prefix table of `replace_imports` (utils/plugin.py): legacy
import-path prefixes and their canonical forms, in source order. -/
def importReplacements : List (List Char × List Char) :=
  [("from utils".data, "from open_webui.utils".data),
   ("from apps".data, "from open_webui.apps".data),
   ("from main".data, "from open_webui.main".data),
   ("from config".data, "from open_webui.config".data)]

/-- `replace_imports` (utils/plugin.py) on `List Char`: successive
`str.replace` over the fixed prefix table, in insertion order. -/
def replaceImportsL (s : List Char) : List Char :=
  importReplacements.foldl (fun acc pr => pyReplace pr.1 pr.2 acc) s

/-- `replace_imports` (utils/plugin.py, lines 44-56). -/
def replace_imports (s : String) : String :=
  ⟨replaceImportsL s.data⟩

/-- Python's whitespace test used by `str.strip()` (ASCII). -/
def isPySpace (c : Char) : Bool :=
  c = ' ' || c = '\t' || c = '\n' || c = '\r' || c = '\x0b' || c = '\x0c'

/-- Python `str.strip()`. -/
def pyStrip (l : List Char) : List Char :=
  ((l.dropWhile isPySpace).reverse.dropWhile isPySpace).reverse

/-- Python `str.split(sep)` for a one-character separator. -/
def pySplit (c : Char) : List Char → List (List Char)
  | [] => [[]]
  | x :: xs =>
    if x = c then [] :: pySplit c xs
    else
      match pySplit c xs with
      | [] => [[x]]
      | h :: t => (x :: h) :: t

/-- Python `str.lower()` (per-character). -/
def pyLower (l : List Char) : List Char := l.map Char.toLower

/-- Index of the first occurrence of `p` in `s` (the position at which the
first regex match of a literal pattern starts). -/
def findSub (p : List Char) : List Char → Option Nat
  | [] => if p.isEmpty then some 0 else none
  | c :: rest =>
    if p.isPrefixOf (c :: rest) then some 0
    else (findSub p rest).map (· + 1)

/-- The `\x22\x22\x22` docstring delimiter. -/
def tripleQuote : List Char := ['"', '"', '"']

/-- Python dict assignment `m[k] = v`: overwrite in place keeping insertion
order, else append. -/
def assocSet {κ α : Type} [BEq κ] (m : List (κ × α)) (k : κ) (v : α) :
    List (κ × α) :=
  if m.any (fun kv => kv.1 == k) then
    m.map (fun kv => if kv.1 == k then (k, v) else kv)
  else m ++ [(k, v)]

/-- Python dict lookup `m.get(k)`. -/
def assocGet {κ α : Type} [BEq κ] (m : List (κ × α)) (k : κ) : Option α :=
  (m.find? (fun kv => kv.1 == k)).map (·.2)

/-- `extract_frontmatter` (utils/plugin.py, lines 18-41): empty map unless
the first line contains the triple-quote delimiter; otherwise the first
non-greedy `\x22\x22\x22(.*?)\x22\x22\x22` match (DOTALL) is stripped and
split into lines, and every line containing a colon is split at its first
colon into a lower-cased stripped key and a stripped value.  (The guarded
operations cannot fault, so the source's fault-swallowing `except` arm is
unreachable and has no separate model.) -/
def extract_frontmatter (content : List Char) : List (List Char × List Char) :=
  let firstLine := content.takeWhile (fun c => c ≠ '\n')
  if containsSub tripleQuote firstLine = false then []
  else
    match findSub tripleQuote content with
    | none => []
    | some i =>
      let rest := content.drop (i + 3)
      match findSub tripleQuote rest with
      | none => []
      | some j =>
        let body := pyStrip (rest.take j)
        (pySplit '\n' body).foldl
          (fun acc line =>
            if line.contains ':' then
              assocSet acc
                (pyLower (pyStrip (line.takeWhile (fun c => c ≠ ':'))))
                (pyStrip ((line.dropWhile (fun c => c ≠ ':')).drop 1))
            else acc) []

/-- Claim-side (C8) reading of §4.1: one line of the delimited block maps
to a key/value pair exactly when it contains a colon. -/
def frontmatterLine (line : List Char) :
    Option (List Char × List Char) :=
  if line.contains ':' then
    some (pyLower (pyStrip (line.takeWhile (fun c => c ≠ ':'))),
      pyStrip ((line.dropWhile (fun c => c ≠ ':')).drop 1))
  else none

/-- Claim-side (C8) reading of §4.1: the first delimited block of the
text — the shortest span between the first delimiter and the next one. -/
def firstDelimitedBlock (content : List Char) : Option (List Char) :=
  match findSub tripleQuote content with
  | none => none
  | some i =>
    match findSub tripleQuote (content.drop (i + 3)) with
    | none => none
    | some j => some ((content.drop (i + 3)).take j)

/-- Claim-side (C8) description of metadata extraction, written from the
spec's words (§4.1): empty when the first line carries no delimiter or no
complete block exists; otherwise the colon-bearing lines of the stripped
block, folded into an insertion-ordered map. -/
def frontmatterSpec (content : List Char) : List (List Char × List Char) :=
  if containsSub tripleQuote (content.takeWhile (fun c => c ≠ '\n')) then
    match firstDelimitedBlock content with
    | none => []
    | some block =>
      ((pySplit '\n' (pyStrip block)).filterMap frontmatterLine).foldl
        (fun acc kv => assocSet acc kv.1 kv.2) []
  else []

/-! ## Data model: JSON-ish values, users, tool and function records -/

/-- JSON-ish values for the `JSONField` columns (`specs`, `meta`,
`valves`). -/
inductive JVal where
  | str : String → JVal
  | num : Int → JVal
  | jbool : Bool → JVal
  | null : JVal
  | obj : List (String × JVal) → JVal

/-- A JSON object, insertion-ordered as a Python dict. -/
abbrev JDict := List (String × JVal)

def JVal.isNull : JVal → Bool
  | .null => true
  | _ => false

/-- Python `{**a, **b}`: `a`'s keys in order with `b`'s values winning,
then `b`-only keys in `b`'s order. -/
def jMerge (a b : JDict) : JDict :=
  a.map (fun kv =>
    match b.find? (fun kv' => kv'.1 == kv.1) with
    | some kv' => (kv.1, kv'.2)
    | none => kv) ++
  b.filter (fun kv' => !(a.any (fun kv => kv.1 == kv'.1)))

/-- The access-control descriptor: `null` or an explicit map from
permission level to the principal ids granted it (§3, §4.5; the concrete
JSON shape lives behind `has_access`, which is not among the provided
sources). -/
abbrev AccessControl := Option (List (String × List String))

/-- The authenticated principal (`get_verified_user`): only the fields the
embedded code consults. -/
structure UserT where
  id : String
  role : String

/-- A row of the `tool` table (models/tools.py, class `Tool`): `user_id`
is nullable — `none` marks a system blueprint. -/
structure ToolRec where
  id : String
  user_id : Option String
  name : String
  content : String
  specs : List JVal
  meta : JDict
  valves : JDict
  access_control : AccessControl
  updated_at : Nat
  created_at : Nat

/-- A row of the `function` table (only the columns the embedded code
consults). -/
structure FunctionRec where
  id : String
  content : String
  is_active : Bool

/-- Modelled from the spec: `has_access` (open_webui.utils.access_control)
is imported by models/tools.py and routers/tools.py but its definition is
not among the provided sources.  Per §3 and §4.5: a null descriptor means
public-read/owner-write, otherwise only the permission level explicitly
listed for the principal is granted (group membership is not representable
in the provided sources, so the descriptor lists principal ids per
permission). -/
def has_access (uid : String) (perm : String) (ac : AccessControl) : Bool :=
  match ac with
  | none => perm == "read"
  | some d =>
    (((d.find? (fun e => e.1 == perm)).map (·.2)).getD []).contains uid

/-! ## Record-store layer (models/tools.py `ToolsTable`) -/

/-- SQL `ORDER BY updated_at DESC`: modelled as a (stable) sort by
`updated_at` descending. -/
def sortByUpdatedDesc (l : List ToolRec) : List ToolRec :=
  l.insertionSort (fun t u => u.updated_at ≤ t.updated_at)

/-- `ToolsTable.get_tool_by_id` (models/tools.py, lines 124-150):
`one_or_none` on the id.  (The specs-reshaping arm concerns rows whose
`specs` column is not a list; `specs` is list-typed here, so it is the
identity.) -/
def get_tool_by_id (db : List ToolRec) (id : String) : Option ToolRec :=
  db.find? (fun t => t.id == id)

/-- A partial column-update payload as passed to
`ToolsTable.update_tool_by_id`. -/
structure ToolUpdate where
  name : Option String := none
  content : Option String := none
  specs : Option (List JVal) := none
  meta : Option JDict := none
  valves : Option JDict := none
  access_control : Option AccessControl := none

/-- Applying `{**updated, "updated_at": now}` to one row. -/
def applyUpdate (t : ToolRec) (u : ToolUpdate) (now : Nat) : ToolRec :=
  { t with
    name := u.name.getD t.name
    content := u.content.getD t.content
    specs := u.specs.getD t.specs
    meta := u.meta.getD t.meta
    valves := u.valves.getD t.valves
    access_control := u.access_control.getD t.access_control
    updated_at := now }

/-- `ToolsTable.update_tool_by_id` (models/tools.py, lines 234-244):
update every row matching the id, commit, re-read. -/
def update_tool_by_id (db : List ToolRec) (id : String) (u : ToolUpdate)
    (now : Nat) : List ToolRec × Option ToolRec :=
  let db' := db.map (fun t => if t.id == id then applyUpdate t u now else t)
  (db', get_tool_by_id db' id)

/-- The placeholder user attached to ownerless tools by
`ToolsTable.get_tools` (models/tools.py, lines 171-180). -/
def systemUserPlaceholder : UserT := ⟨"system", "system"⟩

/-- `ToolsTable.get_tools` (models/tools.py, lines 152-191): every tool
ordered by `updated_at` descending; ownerless tools receive the
placeholder system user and, when their content is empty, a default
content; owned tools carry their joined user row. -/
def get_tools (db : List ToolRec) (users : List UserT) :
    List (ToolRec × Option UserT) :=
  (sortByUpdatedDesc db).map (fun t =>
    if t.user_id == none then
      (if t.content == "" then
        { t with content := "A WeidSyntara system tool." } else t,
        some systemUserPlaceholder)
    else (t, t.user_id.bind (fun uid => users.find? (fun u => u.id == uid))))

/-- Modelled from the spec: `_prepare_tool_for_response` is invoked by
`get_system_tools` but is not defined among the provided sources; per its
call-site comment ("ensuring specs are correctly formatted and user is
None") it only reshapes one record for the response, so it is modelled as
the record itself with an absent user. -/
def prepareToolForResponse (t : ToolRec) : ToolRec × Option UserT :=
  (t, none)

/-- `ToolsTable.get_system_tools` (models/tools.py, lines 193-210): rows
with `user_id IS NULL`, ordered by `updated_at` descending. -/
def get_system_tools (db : List ToolRec) : List (ToolRec × Option UserT) :=
  (sortByUpdatedDesc (db.filter (fun t => t.user_id == none))).map
    prepareToolForResponse

/-- `ToolsTable.get_tools_by_user_id` (models/tools.py, lines 212-229):
all rows ordered by `updated_at` descending, kept when owned by the user
or granted `permission` by `has_access`, then the system tools appended. -/
def get_tools_by_user_id (db : List ToolRec) (users : List UserT)
    (uid : String) (perm : String) : List (ToolRec × Option UserT) :=
  ((sortByUpdatedDesc db).filter
      (fun t => t.user_id == some uid || has_access uid perm t.access_control)
    |>.map (fun t =>
      (t, t.user_id.bind (fun o => users.find? (fun u => u.id == o))))) ++
    get_system_tools db

/-! ## Module loader, module cache and router endpoints -/

/-- HTTP-level failure outcomes of the embedded endpoints. -/
inductive HErr where
  | notFound
  | unauthorized
  | badRequest
  | serverError
deriving DecidableEq

/-- The capability object produced by executing a tool's source (an
external collaborator: Python `exec`).  Only the surface the embedded
endpoints consult is modelled: the optional nested `Valves` class — its
presence, its JSON schema, and its validate-then-dump behaviour (`none` =
`ValidationError`). -/
structure ToolModule where
  hasValves : Bool
  valvesSchema : JVal
  validateValves : JDict → Option JDict

/-- `request.app.state.TOOLS`: the process-wide id → capability-object
cache. -/
abbrev ToolCache := List (String × ToolModule)

/-- `load_tool_module_by_id` (utils/plugin.py, lines 59-126), observable
effects.  `execMod` abstracts executing source text (`none` = the
execution raised).  A `custom_` id is read from the tools directory
(`none` = `FileNotFoundError`).  Otherwise, with no content override, the
record's content is rewritten by `replace_imports` and persisted back
unconditionally — the returned `Nat` counts these store writes (the write
commits in its own session before execution, so it survives even a
subsequent execution failure). -/
def load_tool_module_by_id (execMod : String → Option ToolModule)
    (fs : String → Option String) (tools_dir : String) (now : Nat)
    (db : List ToolRec) (id : String) :
    Option ToolModule × List ToolRec × Nat :=
  if "custom_".data.isPrefixOf id.data then
    match fs (tools_dir ++ "/" ++ String.mk (id.data.drop 7) ++ ".py") with
    | none => (none, db, 0)
    | some c => (execMod c, db, 0)
  else
    match get_tool_by_id db id with
    | none => (none, db, 0)
    | some t =>
      let c := replace_imports t.content
      let db' := (update_tool_by_id db id { content := some c } now).1
      (execMod c, db', 1)

/-- `get_tools_valves_spec_by_id` (routers/tools.py, lines 384-408).
Returns the result, the cache, the store (the loader may rewrite it), and
the number of loader invocations (0 = served from the cache). -/
def get_tools_valves_spec_by_id (execMod : String → Option ToolModule)
    (fs : String → Option String) (tools_dir : String) (now : Nat)
    (st : ToolCache) (db : List ToolRec) (id : String) (user : UserT) :
    Except HErr (Option JVal) × ToolCache × List ToolRec × Nat :=
  match get_tool_by_id db id with
  | none => (.error .notFound, st, db, 0)
  | some tool =>
    if user.role != "admin" && tool.user_id != none &&
        tool.user_id != some user.id then
      (.error .unauthorized, st, db, 0)
    else
      match assocGet st id with
      | some m =>
        (.ok (if m.hasValves then some m.valvesSchema else none), st, db, 0)
      | none =>
        match load_tool_module_by_id execMod fs tools_dir now db id with
        | (none, db', _) => (.error .serverError, st, db', 1)
        | (some m, db', _) =>
          (.ok (if m.hasValves then some m.valvesSchema else none),
            assocSet st id m, db', 1)

/-- `get_tools_valves_by_id` (routers/tools.py, lines 352-376): prefer the
user's personal copy `\x7bid\x7d_user_\x7buser.id\x7d`, else the record
itself, guarded by owner-or-admin-or-system only. -/
def get_tools_valves_by_id (db : List ToolRec) (id : String) (user : UserT) :
    Except HErr JDict :=
  let pid := id ++ "_user_" ++ user.id
  match db.find? (fun t => t.id == pid && t.user_id == some user.id) with
  | some pc => .ok pc.valves
  | none =>
    match db.find? (fun t => t.id == id) with
    | none => .error .notFound
    | some bp =>
      if bp.user_id != none && bp.user_id != some user.id &&
          user.role != "admin" then .error .unauthorized
      else .ok bp.valves

/-- The tail of `update_tools_valves_by_id` shared by its three arms
(routers/tools.py, lines 454-481): fetch the blueprint's module from the
cache or the loader (whose content rewrite commits in its own session and
so survives the endpoint rollback), require a `Valves` class, validate the
null-stripped payload, then commit the pending personal copy (if any) and
the valves assignment; every raise inside the endpoint's `try` rolls the
session back and surfaces as a 400. -/
def valvesUpdateFinish (execMod : String → Option ToolModule)
    (fs : String → Option String) (tools_dir : String) (now : Nat)
    (st : ToolCache) (db : List ToolRec) (pending : Option ToolRec)
    (targetId : String) (bpLoadId : String) (form_data : JDict) :
    Except HErr JDict × List ToolRec × ToolCache :=
  let cacheOrLoad : Option ToolModule × ToolCache × List ToolRec :=
    match assocGet st bpLoadId with
    | some m => (some m, st, db)
    | none =>
      match load_tool_module_by_id execMod fs tools_dir now db bpLoadId with
      | (none, db', _) => (none, st, db')
      | (some m, db', _) => (some m, assocSet st bpLoadId m, db')
  match cacheOrLoad with
  | (none, st', db1) => (.error .badRequest, db1, st')
  | (some m, st', db1) =>
    if !m.hasValves then (.error .badRequest, db1, st')
    else
      match m.validateValves (form_data.filter (fun kv => !kv.2.isNull)) with
      | none => (.error .badRequest, db1, st')
      | some v =>
        let db2 := match pending with
          | some r => db1 ++ [r]
          | none => db1
        let db3 := db2.map (fun t =>
          if t.id == targetId then { t with valves := v, updated_at := now }
          else t)
        (.ok v, db3, st')

/-- `update_tools_valves_by_id` (routers/tools.py, lines 416-481): a
system blueprint routes the write to the user's personal copy (created
lazily from the blueprint); otherwise only a record owned by the caller is
updated — and the 404 raised for any other record lies inside the
endpoint's `try`, so it surfaces as a 400. -/
def update_tools_valves_by_id (execMod : String → Option ToolModule)
    (fs : String → Option String) (tools_dir : String) (now : Nat)
    (st : ToolCache) (db : List ToolRec) (id : String) (form_data : JDict)
    (user : UserT) : Except HErr JDict × List ToolRec × ToolCache :=
  match db.find? (fun t => t.id == id && t.user_id == none) with
  | none =>
    match db.find? (fun t => t.id == id && t.user_id == some user.id) with
    | none => (.error .badRequest, db, st)
    | some ut =>
      valvesUpdateFinish execMod fs tools_dir now st db none ut.id ut.id
        form_data
  | some bp =>
    let pid := id ++ "_user_" ++ user.id
    match db.find? (fun t => t.id == pid) with
    | some _ =>
      valvesUpdateFinish execMod fs tools_dir now st db none pid id form_data
    | none =>
      let npc : ToolRec :=
        { id := pid, user_id := some user.id, name := bp.name,
          content := bp.content, specs := bp.specs,
          meta := jMerge [("parent_tool_id", JVal.str id)] bp.meta,
          valves := form_data, access_control := none,
          updated_at := now, created_at := now }
      valvesUpdateFinish execMod fs tools_dir now st db (some npc) pid id
        form_data

/-- `ToolForm.model_dump(exclude=\x7b"id"\x7d, exclude_unset=True)` as it
feeds `update_tools_by_id`: `none` marks a field absent from the dumped
payload. -/
structure ToolFormPartial where
  name : Option String := none
  content : Option String := none
  meta : Option JDict := none
  access_control : Option AccessControl := none

/-- Frontmatter as stored into `meta.manifest` (String-keyed JSON). -/
def frontmatterToJ (fm : List (List Char × List Char)) : JDict :=
  fm.map (fun kv => (String.mk kv.1, JVal.str (String.mk kv.2)))

/-- `update_tools_by_id` (routers/tools.py, lines 255-313).  For a system
tool only `name` and `meta` (merged over the existing meta) pass through —
with nothing allowed, the record is returned untouched; for a user tool
the content is rewritten and re-executed (`specsOf` abstracts
`get_tool_specs`) and every supplied field is persisted.  Raises inside
the `try` surface as 400. -/
def update_tools_by_id (execMod : String → Option ToolModule)
    (specsOf : ToolModule → List JVal) (now : Nat) (st : ToolCache)
    (db : List ToolRec) (id : String) (form : ToolFormPartial)
    (user : UserT) : Except HErr ToolRec × List ToolRec × ToolCache :=
  match get_tool_by_id db id with
  | none => (.error .notFound, db, st)
  | some tool =>
    if tool.user_id != none && tool.user_id != some user.id &&
        !(has_access user.id "write" tool.access_control) &&
        user.role != "admin" then
      (.error .unauthorized, db, st)
    else
      if tool.user_id == none then
        if form.name.isNone && form.meta.isNone then (.ok tool, db, st)
        else
          let u : ToolUpdate :=
            { name := form.name,
              meta := form.meta.map (fun m => jMerge tool.meta m) }
          match update_tool_by_id db id u now with
          | (db', some t') => (.ok t', db', st)
          | (db', none) => (.error .badRequest, db', st)
      else
        let c := replace_imports (form.content.getD "")
        match execMod c with
        | none => (.error .badRequest, db, st)
        | some m =>
          match form.meta with
          | none => (.error .badRequest, db, st)
          | some meta0 =>
            let meta1 := assocSet meta0 "manifest"
              (JVal.obj (frontmatterToJ (extract_frontmatter c.data)))
            let st' := assocSet st id m
            let u : ToolUpdate :=
              { name := form.name, content := form.content, meta := some meta1,
                access_control := form.access_control,
                specs := some (specsOf m) }
            match update_tool_by_id db id u now with
            | (db', some t') => (.ok t', db', st')
            | (db', none) => (.error .badRequest, db', st')

/-! ## Function-module cache (utils/plugin.py, function side) -/

/-- Modelled from the spec: the function-record store operations
(`Functions.update_function_by_id`, models/functions.py) are not among the
provided sources; per §6 they are plain keyed-record field updates. -/
def update_function_content (fdb : List FunctionRec) (fid c : String) :
    List FunctionRec :=
  fdb.map (fun f => if f.id == fid then { f with content := c } else f)

/-- Modelled from the spec: `Functions.update_function_by_id(id,
\x7b"is_active": False\x7d)` as a keyed-record field update. -/
def set_function_inactive (fdb : List FunctionRec) (fid : String) :
    List FunctionRec :=
  fdb.map (fun f => if f.id == fid then { f with is_active := false } else f)

/-- `load_function_module_by_id` (utils/plugin.py, lines 129-166) with an
explicit content override, as the cache invokes it; on an execution fault
the record is deactivated and the fault propagates. -/
def load_function_module_by_id {μ : Type} (execFn : String → Option μ)
    (fdb : List FunctionRec) (fid : String) (c : String) :
    Option μ × List FunctionRec :=
  match execFn c with
  | some m => (some m, fdb)
  | none => (none, set_function_inactive fdb fid)

/-- The cache-miss tail of `get_function_module_from_cache` (lines
182-192): load and (on success) store into both cache maps. -/
def fnCacheMiss {μ : Type} (execFn : String → Option μ)
    (fdb : List FunctionRec) (fns : List (String × μ))
    (fcontents : List (String × String)) (fid c : String) :
    Option μ × List FunctionRec × List (String × μ) ×
      List (String × String) × Nat :=
  match load_function_module_by_id execFn fdb fid c with
  | (none, fdb') => (none, fdb', fns, fcontents, 1)
  | (some m, fdb') =>
    (some m, fdb', assocSet fns fid m, assocSet fcontents fid c, 1)

/-- `get_function_module_from_cache` (utils/plugin.py, lines 169-192) in
its `load_from_db=True` form (the form the claims exercise; the
`load_from_db=False` arm references `content` before assignment on a cache
miss and is not modelled): the content is rewritten and persisted only if
changed, then the cache hit requires both maps to hold the id with the
snapshot equal to the current content.  The final `Nat` counts source
executions. -/
def get_function_module_from_cache {μ : Type} (execFn : String → Option μ)
    (fdb : List FunctionRec) (fns : List (String × μ))
    (fcontents : List (String × String)) (fid : String) :
    Option μ × List FunctionRec × List (String × μ) ×
      List (String × String) × Nat :=
  match fdb.find? (fun f => f.id == fid) with
  | none => (none, fdb, fns, fcontents, 0)
  | some f =>
    let c1 := replace_imports f.content
    let fdb1 :=
      if c1 != f.content then update_function_content fdb fid c1 else fdb
    -- when the rewrite changed nothing the source's `content` variable
    -- still equals `c1`, so `c1` stands for `content` throughout
    match assocGet fcontents fid, assocGet fns fid with
    | some snap, some m =>
      if snap == c1 then (some m, fdb1, fns, fcontents, 0)
      else fnCacheMiss execFn fdb1 fns fcontents fid c1
    | _, _ => fnCacheMiss execFn fdb1 fns fcontents fid c1

/-! ## Batch dependency installation (utils/plugin.py, lines 195-260) -/

/-- `install_frontmatter_requirements` (utils/plugin.py, lines 195-207):
the pip arguments, or `none` when pip is not invoked. -/
def install_frontmatter_requirements (requirements : List Char) :
    Option (List (List Char)) :=
  if requirements.isEmpty then none
  else
    let l := ((pySplit ',' requirements).map pyStrip).filter
      (fun r => !r.isEmpty)
    if l.isEmpty then none else some l

/-- Python `set.add`, over an insertion-ordered model of the set. -/
def setAdd (s : List (List Char)) (x : List Char) : List (List Char) :=
  if s.contains x then s else s ++ [x]

/-- Python `", ".join`. -/
def pyJoin (sep : List Char) : List (List Char) → List Char
  | [] => []
  | [x] => x
  | x :: y :: xs => x ++ sep ++ pyJoin sep (y :: xs)

/-- The requirements-collection step shared by both loops of
`install_tool_and_function_dependencies`: when the frontmatter carries a
nonempty `requirements`, add each comma-separated entry, stripped, to the
set. -/
def addFrontmatterDeps (deps : List (List Char))
    (fm : List (List Char × List Char)) : List (List Char) :=
  match assocGet fm "requirements".data with
  | none => deps
  | some r =>
    if r.isEmpty then deps
    else (pySplit ',' r).foldl (fun acc d => setAdd acc (pyStrip d)) deps

/-- The per-tool frontmatter selection of
`install_tool_and_function_dependencies` (lines 229-247): file-resident
frontmatter for ownerless `custom_` tools (empty on a read fault),
rewritten-content frontmatter for tools whose joined user is an admin,
empty otherwise. -/
def toolFrontmatter (fs : String → Option String) (tools_dir : String)
    (t : ToolRec) (u : Option UserT) : List (List Char × List Char) :=
  if t.user_id == none && "custom_".data.isPrefixOf t.id.data then
    match fs (tools_dir ++ "/" ++ String.mk (t.id.data.drop 7) ++ ".py") with
    | none => []
    | some c => extract_frontmatter c.data
  else
    match u with
    | some usr =>
      if usr.role == "admin" then
        extract_frontmatter (replaceImportsL t.content.data)
      else []
    | none => []

/-- Modelled from the spec: `Functions.get_functions(active_only=True)`
(models/functions.py is not among the provided sources); per §2/§6 it
lists the active function records. -/
def get_functions_active (fdb : List FunctionRec) : List FunctionRec :=
  fdb.filter (fun f => f.is_active)

/-- `install_tool_and_function_dependencies` (utils/plugin.py, lines
210-260): the union of per-extension requirement declarations over active
functions and over `get_tools`, then one pip invocation when the set is
nonempty (Python's unordered set modelled insertion-ordered). -/
def install_tool_and_function_dependencies (users : List UserT)
    (fs : String → Option String) (tools_dir : String)
    (fdb : List FunctionRec) (db : List ToolRec) :
    Option (List (List Char)) :=
  let fdeps := (get_functions_active fdb).foldl
    (fun acc f => addFrontmatterDeps acc
      (extract_frontmatter (replaceImportsL f.content.data))) []
  let alldeps := (get_tools db users).foldl
    (fun acc tu => addFrontmatterDeps acc
      (toolFrontmatter fs tools_dir tu.1 tu.2)) fdeps
  if alldeps.isEmpty then none
  else install_frontmatter_requirements (pyJoin ", ".data alldeps)

/-- Claim-side (C9, amended): the dependency entries one frontmatter
declares — its nonempty `requirements`, split at commas, each entry
stripped. -/
def depsOfFrontmatter (fm : List (List Char × List Char)) :
    List (List Char) :=
  match assocGet fm "requirements".data with
  | none => []
  | some r => if r.isEmpty then [] else (pySplit ',' r).map pyStrip

/-- Claim-side (C9, amended): insertion-ordered deduplication. -/
def dedupDeps (l : List (List Char)) : List (List Char) :=
  l.foldl setAdd []

/-- Claim-side (C9, amended): the deduplicated union of requirement
declarations over the active functions and over the tools the batch entry
point actually consults (file-resident `custom_` system tools and
admin-owned tools). -/
def amendedDependencyUnion (users : List UserT)
    (fs : String → Option String) (tools_dir : String)
    (fdb : List FunctionRec) (db : List ToolRec) : List (List Char) :=
  dedupDeps
    (((get_functions_active fdb).map (fun f =>
        depsOfFrontmatter
          (extract_frontmatter (replaceImportsL f.content.data)))).flatten ++
      ((get_tools db users).map (fun tu =>
        depsOfFrontmatter (toolFrontmatter fs tools_dir tu.1 tu.2))).flatten)

/-- Claim-side (C9, as stated): the union of requirement declarations
across every active function and every tool, deduplicated — the set the
claim says the installer must receive. -/
def claimedDependencyUnion (users : List UserT)
    (fs : String → Option String) (tools_dir : String)
    (fdb : List FunctionRec) (db : List ToolRec) : List (List Char) :=
  dedupDeps
    (((get_functions_active fdb).map (fun f =>
        depsOfFrontmatter
          (extract_frontmatter (replaceImportsL f.content.data)))).flatten ++
      ((get_tools db users).map (fun tu =>
        depsOfFrontmatter
          (extract_frontmatter (replaceImportsL tu.1.content.data)))).flatten)

/-- A concrete tool owned by a regular user whose frontmatter declares a
requirement. -/
def c9Tool : ToolRec :=
  { id := "t", user_id := some "u", name := "n",
    content := "\"\"\"\nrequirements: foo\n\"\"\"", specs := [],
    meta := [], valves := [], access_control := none, updated_at := 0,
    created_at := 0 }

/-- The user base for the concrete C9 scenario: one non-admin user. -/
def c9Users : List UserT := [⟨"u", "user"⟩]

/-! ## Lemmas about `pyReplace` and `containsSub` -/

theorem prefix_append_cases {α : Type} {q a b : List α} (h : q <+: a ++ b) :
    q <+: a ∨ (a <+: q ∧ q.drop a.length <+: b) := by
  rcases List.prefix_or_prefix_of_prefix h (List.prefix_append a b) with hq | hq
  · exact Or.inl hq
  · right
    refine ⟨hq, ?_⟩
    obtain ⟨t, ht⟩ := hq
    subst ht
    rw [List.drop_left]
    rwa [List.prefix_append_right_inj] at h

theorem containsSub_iff_exists_drop {p s : List Char} :
    containsSub p s = true ↔ ∃ k, p <+: s.drop k := by
  induction s with
  | nil =>
    simp only [containsSub, List.isEmpty_iff, List.drop_nil]
    constructor
    · rintro rfl; exact ⟨0, List.nil_prefix⟩
    · rintro ⟨k, hk⟩; exact List.prefix_nil.mp hk
  | cons c rest ih =>
    simp only [containsSub, Bool.or_eq_true, List.isPrefixOf_iff_prefix, ih]
    constructor
    · rintro (h | ⟨k, hk⟩)
      · exact ⟨0, h⟩
      · exact ⟨k + 1, by simpa using hk⟩
    · rintro ⟨k, hk⟩
      match k with
      | 0 => exact Or.inl hk
      | k + 1 => exact Or.inr ⟨k, by simpa using hk⟩

theorem containsSub_eq_false_iff {p s : List Char} :
    containsSub p s = false ↔ ∀ k, ¬ p <+: s.drop k := by
  rw [← Bool.not_eq_true, containsSub_iff_exists_drop]
  push_neg
  rfl

theorem containsSub_drop {p s : List Char} (n : Nat)
    (h : containsSub p s = false) : containsSub p (s.drop n) = false := by
  rw [containsSub_eq_false_iff] at h ⊢
  intro k
  rw [List.drop_drop]
  exact h _

theorem containsSub_of_prefix_drop {p s : List Char} {k : Nat}
    (h : p <+: s.drop k) : containsSub p s = true :=
  containsSub_iff_exists_drop.mpr ⟨k, h⟩

/-- Unpacked form of `safePattern`. -/
theorem safePattern_spec {p old new : List Char} (h : safePattern p old new = true) :
    p ≠ [] ∧ old ≠ [] ∧ p.length ≤ new.length ∧ containsSub p new = false ∧
      (∀ k < new.length, ¬ (new.drop k <+: p)) ∧
      (∀ j < p.length, ¬ (p.drop j <+: new)) := by
  simp only [safePattern, Bool.and_eq_true, Bool.not_eq_true',
    decide_eq_true_eq, List.all_eq_true, List.mem_range] at h
  obtain ⟨⟨⟨⟨⟨hp, hold⟩, hlen⟩, hnc⟩, hsn⟩, hsp⟩ := h
  refine ⟨?_, ?_, hlen, hnc, ?_, ?_⟩
  · intro hcontra; simp [hcontra] at hp
  · intro hcontra; simp [hcontra] at hold
  · intro k hk hpre
    have h2 := hsn k hk
    rw [Bool.eq_false_iff] at h2
    exact h2 (List.isPrefixOf_iff_prefix.mpr hpre)
  · intro j hj hpre
    have h2 := hsp j hj
    rw [Bool.eq_false_iff] at h2
    exact h2 (List.isPrefixOf_iff_prefix.mpr hpre)

theorem containsSub_append_true {p a b : List Char}
    (h : containsSub p (a ++ b) = true) :
    (∃ k, k < a.length ∧ p <+: (a.drop k ++ b)) ∨ containsSub p b = true := by
  induction a with
  | nil => right; simpa using h
  | cons x a' ih =>
    rw [show (x :: a') ++ b = x :: (a' ++ b) from rfl, containsSub,
      Bool.or_eq_true] at h
    rcases h with h | h
    · left
      exact ⟨0, by simp, by simpa [List.isPrefixOf_iff_prefix] using h⟩
    · rcases ih h with ⟨k, hk, hpre⟩ | h2
      · left
        refine ⟨k + 1, by simpa using Nat.succ_lt_succ hk, ?_⟩
        simpa using hpre
      · right; exact h2

/-- If `safePattern p a b` holds, `pyReplace a b` never creates a new
prefix-of-a-suffix of the pattern `p`: whatever suffix of `p` prefixes the
output already prefixed the input. -/
theorem pyReplace_prefix_drop (p a b : List Char)
    (hs : safePattern p a b = true) :
    ∀ n s, s.length ≤ n → ∀ j, j < p.length →
      p.drop j <+: pyReplace a b s → p.drop j <+: s := by
  obtain ⟨hp, ha, hlen, hnc, hsn, hsp⟩ := safePattern_spec hs
  intro n
  induction n with
  | zero =>
    intro s hslen j hj hq
    have hnil : s = [] := List.length_eq_zero.mp (Nat.le_zero.mp hslen)
    subst hnil
    simpa [pyReplace] using hq
  | succ m ih =>
    intro s hslen j hj hq
    match s with
    | [] => simpa [pyReplace] using hq
    | c :: rest =>
      rw [pyReplace] at hq
      by_cases hmatch : a ≠ [] ∧ a.isPrefixOf (c :: rest)
      · rw [dif_pos hmatch] at hq
        exfalso
        rcases prefix_append_cases hq with hq1 | ⟨hq1, _⟩
        · exact hsp j hj hq1
        · have hle : b.length ≤ (p.drop j).length := hq1.length_le
          have hdl : (p.drop j).length = p.length - j := List.length_drop j p
          have heq : b = p.drop j := hq1.eq_of_length (by omega)
          exact hsp j hj (heq ▸ List.prefix_rfl)
      · rw [dif_neg hmatch] at hq
        rcases List.prefix_cons_iff.mp hq with hnil | ⟨t, hqt, ht⟩
        · exfalso
          have := congrArg List.length hnil
          simp [List.length_drop] at this
          omega
        · have htj : t = p.drop (j + 1) := by
            have h1 : (p.drop j).drop 1 = p.drop (j + 1) := List.drop_drop 1 j p
            rw [hqt] at h1
            simpa using h1
          have hrest : rest.length ≤ m := by
            simp only [List.length_cons] at hslen
            omega
          by_cases hlast : j + 1 < p.length
          · have ht2 : p.drop (j + 1) <+: rest :=
              ih rest hrest (j + 1) hlast (htj ▸ ht)
            rw [hqt, htj]
            exact List.cons_prefix_cons.mpr ⟨rfl, ht2⟩
          · have htnil : t = [] := by
              rw [htj]
              exact List.drop_eq_nil_of_le (by omega)
            rw [hqt, htnil]
            exact List.cons_prefix_cons.mpr ⟨rfl, List.nil_prefix⟩

/-- If `safePattern p a b` holds, then `pyReplace a b` output never contains
`p` — unconditionally when `p = a` (self-erasure), and assuming the input
was `p`-free otherwise (no creation of foreign patterns). -/
theorem containsSub_pyReplace_eq_false (p a b : List Char)
    (hs : safePattern p a b = true) :
    ∀ n s, s.length ≤ n → (p = a ∨ containsSub p s = false) →
      containsSub p (pyReplace a b s) = false := by
  obtain ⟨hp, ha, hlen, hnc, hsn, hsp⟩ := safePattern_spec hs
  intro n
  induction n with
  | zero =>
    intro s hslen _
    have hnil : s = [] := List.length_eq_zero.mp (Nat.le_zero.mp hslen)
    subst hnil
    simp [pyReplace, containsSub, List.isEmpty_iff, hp]
  | succ m ih =>
    intro s hslen hside
    match s with
    | [] => simp [pyReplace, containsSub, List.isEmpty_iff, hp]
    | c :: rest =>
      rw [pyReplace]
      by_cases hmatch : a ≠ [] ∧ a.isPrefixOf (c :: rest)
      · rw [dif_pos hmatch]
        by_contra habs
        rw [Bool.not_eq_false] at habs
        have hside' : p = a ∨ containsSub p ((c :: rest).drop a.length) = false := by
          rcases hside with h | h
          · exact Or.inl h
          · exact Or.inr (containsSub_drop _ h)
        have hdroplen : ((c :: rest).drop a.length).length ≤ m := by
          have hapos : 0 < a.length := List.length_pos.mpr hmatch.1
          simp only [List.length_drop, List.length_cons]
          simp only [List.length_cons] at hslen
          omega
        have hR := ih ((c :: rest).drop a.length) hdroplen hside'
        rcases containsSub_append_true habs with ⟨k, hk, hpre⟩ | hcb
        · rcases prefix_append_cases hpre with hp1 | ⟨hp1, _⟩
          · rw [containsSub_of_prefix_drop hp1] at hnc
            simp at hnc
          · exact hsn k hk hp1
        · rw [hcb] at hR
          simp at hR
      · rw [dif_neg hmatch]
        have hnopre : ¬ a.isPrefixOf (c :: rest) := by
          intro hcontra
          exact hmatch ⟨ha, hcontra⟩
        have hside' : p = a ∨ containsSub p rest = false := by
          rcases hside with h | h
          · exact Or.inl h
          · rw [containsSub, Bool.or_eq_false_iff] at h
            exact Or.inr h.2
        have hrest : rest.length ≤ m := by
          simp only [List.length_cons] at hslen
          omega
        have hR := ih rest hrest hside'
        rw [containsSub, Bool.or_eq_false_iff]
        refine ⟨?_, hR⟩
        rw [Bool.eq_false_iff]
        intro hpre
        rw [List.isPrefixOf_iff_prefix] at hpre
        rcases List.prefix_cons_iff.mp hpre with hnil | ⟨t, hqt, ht⟩
        · exact hp hnil
        · have hfull : p <+: c :: rest := by
            cases t with
            | nil =>
              rw [hqt]
              exact List.cons_prefix_cons.mpr ⟨rfl, List.nil_prefix⟩
            | cons x t' =>
              have hlen1 : 1 < p.length := by
                rw [hqt]
                simp
              have htj : x :: t' = p.drop 1 := by
                rw [hqt]
                simp
              have ht2 : p.drop 1 <+: rest :=
                pyReplace_prefix_drop p a b hs rest.length rest le_rfl 1 hlen1
                  (htj ▸ ht)
              rw [hqt, htj]
              exact List.cons_prefix_cons.mpr ⟨rfl, ht2⟩
          rcases hside with hpa | hcs
          · subst hpa
            exact hnopre (List.isPrefixOf_iff_prefix.mpr hfull)
          · have hcc : containsSub p (c :: rest) = true := by
              rw [containsSub, Bool.or_eq_true]
              exact Or.inl (List.isPrefixOf_iff_prefix.mpr hfull)
            rw [hcc] at hcs
            simp at hcs

/-- A `pyReplace` whose pattern does not occur leaves the text unchanged. -/
theorem pyReplace_eq_self {a s : List Char} (b : List Char)
    (h : containsSub a s = false) :
    pyReplace a b s = s := by
  induction s with
  | nil => simp [pyReplace]
  | cons c rest ih =>
    rw [containsSub, Bool.or_eq_false_iff] at h
    rw [pyReplace, dif_neg]
    · rw [ih h.2]
    · intro hcontra
      rw [hcontra.2] at h
      simp at h

/-- `replaceImportsL` unfolded to the four successive replaces, in the
source's iteration order. -/
theorem replaceImportsL_eq (t : List Char) :
    replaceImportsL t =
      pyReplace "from config".data "from open_webui.config".data
        (pyReplace "from main".data "from open_webui.main".data
          (pyReplace "from apps".data "from open_webui.apps".data
            (pyReplace "from utils".data "from open_webui.utils".data t))) := rfl

/-- After one pass of `replaceImportsL`, none of the four legacy prefixes
occurs in the text. -/
theorem containsSub_replaceImportsL (t : List Char) :
    containsSub "from utils".data (replaceImportsL t) = false ∧
      containsSub "from apps".data (replaceImportsL t) = false ∧
      containsSub "from main".data (replaceImportsL t) = false ∧
      containsSub "from config".data (replaceImportsL t) = false := by
  rw [replaceImportsL_eq]
  refine ⟨?_, ?_, ?_, ?_⟩
  · apply containsSub_pyReplace_eq_false _ _ _ (by decide) _ _ le_rfl
    apply Or.inr
    apply containsSub_pyReplace_eq_false _ _ _ (by decide) _ _ le_rfl
    apply Or.inr
    apply containsSub_pyReplace_eq_false _ _ _ (by decide) _ _ le_rfl
    apply Or.inr
    apply containsSub_pyReplace_eq_false _ _ _ (by decide) _ _ le_rfl
    exact Or.inl rfl
  · apply containsSub_pyReplace_eq_false _ _ _ (by decide) _ _ le_rfl
    apply Or.inr
    apply containsSub_pyReplace_eq_false _ _ _ (by decide) _ _ le_rfl
    apply Or.inr
    apply containsSub_pyReplace_eq_false _ _ _ (by decide) _ _ le_rfl
    exact Or.inl rfl
  · apply containsSub_pyReplace_eq_false _ _ _ (by decide) _ _ le_rfl
    apply Or.inr
    apply containsSub_pyReplace_eq_false _ _ _ (by decide) _ _ le_rfl
    exact Or.inl rfl
  · apply containsSub_pyReplace_eq_false _ _ _ (by decide) _ _ le_rfl
    exact Or.inl rfl

theorem replaceImportsL_idem (s : List Char) :
    replaceImportsL (replaceImportsL s) = replaceImportsL s := by
  obtain ⟨h1, h2, h3, h4⟩ := containsSub_replaceImportsL s
  rw [replaceImportsL_eq (replaceImportsL s)]
  rw [pyReplace_eq_self _ h1, pyReplace_eq_self _ h2, pyReplace_eq_self _ h3,
    pyReplace_eq_self _ h4]

theorem replace_imports_idem (s : String) :
    replace_imports (replace_imports s) = replace_imports s :=
  congrArg String.mk (replaceImportsL_idem s.data)

/-- A `replace_imports` pass over text free of the four legacy prefixes is
the identity. -/
theorem replace_imports_eq_self (s : String)
    (h1 : containsSub "from utils".data s.data = false)
    (h2 : containsSub "from apps".data s.data = false)
    (h3 : containsSub "from main".data s.data = false)
    (h4 : containsSub "from config".data s.data = false) :
    replace_imports s = s := by
  unfold replace_imports
  rw [replaceImportsL_eq, pyReplace_eq_self _ h1, pyReplace_eq_self _ h2,
    pyReplace_eq_self _ h3, pyReplace_eq_self _ h4]

theorem replaceImportsL_eq_self (l : List Char)
    (h1 : containsSub "from utils".data l = false)
    (h2 : containsSub "from apps".data l = false)
    (h3 : containsSub "from main".data l = false)
    (h4 : containsSub "from config".data l = false) :
    replaceImportsL l = l := by
  rw [replaceImportsL_eq, pyReplace_eq_self _ h1, pyReplace_eq_self _ h2,
    pyReplace_eq_self _ h3, pyReplace_eq_self _ h4]

/-! ## C8: frontmatter extraction -/

theorem foldl_frontmatterLine (lines : List (List Char))
    (acc : List (List Char × List Char)) :
    lines.foldl
      (fun acc line =>
        if line.contains ':' then
          assocSet acc
            (pyLower (pyStrip (line.takeWhile (fun c => c ≠ ':'))))
            (pyStrip ((line.dropWhile (fun c => c ≠ ':')).drop 1))
        else acc) acc =
    (lines.filterMap frontmatterLine).foldl
      (fun acc kv => assocSet acc kv.1 kv.2) acc := by
  induction lines generalizing acc with
  | nil => rfl
  | cons l ls ih =>
    simp only [List.foldl_cons, List.filterMap_cons]
    by_cases h : l.contains ':'
    · have hfl : frontmatterLine l =
          some (pyLower (pyStrip (l.takeWhile (fun c => c ≠ ':'))),
            pyStrip ((l.dropWhile (fun c => c ≠ ':')).drop 1)) := by
        unfold frontmatterLine
        rw [if_pos h]
      rw [if_pos h, hfl]
      simp only [List.foldl_cons]
      exact ih _
    · have hfl : frontmatterLine l = none := by
        unfold frontmatterLine
        rw [if_neg h]
      rw [if_neg h, hfl]
      exact ih _

/-- C8: for every input, frontmatter extraction is total (the embedding is
a Lean function, so it never raises) and returns exactly what §4.1
describes: the empty map when the first line of the source carries no
triple-quote delimiter or no complete delimited block exists, and
otherwise, for each line of the first delimited block that contains a
colon, the lower-cased stripped text before the first colon mapped to the
stripped text after it, lines without a colon being ignored. -/
theorem claim8_extract_frontmatter (content : List Char) :
    extract_frontmatter content = frontmatterSpec content := by
  simp only [extract_frontmatter, frontmatterSpec, firstDelimitedBlock]
  cases hb : containsSub tripleQuote (content.takeWhile fun c => c ≠ '\n') with
  | false => simp
  | true =>
    rw [if_neg (by simp), if_pos rfl]
    cases hf : findSub tripleQuote content with
    | none => rfl
    | some i =>
      dsimp only
      cases hg : findSub tripleQuote (content.drop (i + 3)) with
      | none => rfl
      | some j =>
        dsimp only
        exact foldl_frontmatterLine _ _

/-! ## C7: import rewriting and load-path persistence -/

/-- C7 (counterexample): during a load without a source override the
rewritten source is persisted back to the record store even when it equals
the stored source — the content `x = 1` is already canonical, yet the load
issues one store write, refuting "a store write occurs at most once per
stale record . . . only when it differs". -/
theorem claim7_counterexample :
    replace_imports "x = 1" = "x = 1" ∧
    (load_tool_module_by_id (fun _ => none) (fun _ => none) "/tools" 5
      [{ id := "t", user_id := some "u", name := "n", content := "x = 1",
         specs := [], meta := [], valves := [], access_control := none,
         updated_at := 0, created_at := 0 }] "t").2.2 = 1 := by
  refine ⟨replace_imports_eq_self _ (by decide) (by decide) (by decide)
    (by decide), ?_⟩
  rfl

/-- C7 (amended): the legacy import-path rewrite is idempotent as a pure
text function (`replace_imports (replace_imports s) = replace_imports s`
for every source string `s`); but during a load without a source override
the rewritten source is persisted back to the record store
unconditionally — exactly one store write per load even when the rewrite
changed nothing (the persist-only-on-change guard exists only on the
function-cache path). -/
theorem claim7_amended (s : String) (execMod : String → Option ToolModule)
    (fs : String → Option String) (tools_dir : String) (now : Nat)
    (db : List ToolRec) (id : String) (t : ToolRec)
    (hc : "custom_".data.isPrefixOf id.data = false)
    (hf : get_tool_by_id db id = some t) :
    replace_imports (replace_imports s) = replace_imports s ∧
    (load_tool_module_by_id execMod fs tools_dir now db id).2.2 = 1 := by
  refine ⟨replace_imports_idem s, ?_⟩
  unfold load_tool_module_by_id
  rw [hc]
  rw [if_neg (by simp)]
  rw [hf]

/-- Witness for C7 (amended) at a concrete store and source string. -/
theorem claim7_witness :
    replace_imports (replace_imports "from utils import x") =
        replace_imports "from utils import x" ∧
    (load_tool_module_by_id (fun _ => none) (fun _ => none) "/tools" 5
      [{ id := "t", user_id := some "u", name := "n", content := "x = 1",
         specs := [], meta := [], valves := [], access_control := none,
         updated_at := 0, created_at := 0 }] "t").2.2 = 1 :=
  claim7_amended "from utils import x" _ _ _ _ _ _
    { id := "t", user_id := some "u", name := "n", content := "x = 1",
      specs := [], meta := [], valves := [], access_control := none,
      updated_at := 0, created_at := 0 } rfl rfl

/-! ## C1: module cache behaviour -/

/-- The cache-miss tail always performs exactly one source execution. -/
theorem fnCacheMiss_count {μ : Type} (execFn : String → Option μ)
    (fdb : List FunctionRec) (fns : List (String × μ))
    (fcontents : List (String × String)) (fid c : String) :
    (fnCacheMiss execFn fdb fns fcontents fid c).2.2.2.2 = 1 := by
  unfold fnCacheMiss load_function_module_by_id
  cases execFn c <;> rfl

/-- C1 (counterexample): for tool ids the cache-or-load of the valves-spec
endpoint does not compare any source snapshot: one and the same cache
entry is served back without any rebuild for two stores whose current
sources differ, so the operation cannot be "rebuilding whenever the
snapshot differs from the current source". -/
theorem claim1_counterexample :
    (get_tools_valves_spec_by_id (fun _ => none) (fun _ => none) "/tools" 9
      [("t", { hasValves := false, valvesSchema := JVal.null,
               validateValves := fun _ => none })]
      [{ id := "t", user_id := none, name := "n", content := "a",
         specs := [], meta := [], valves := [], access_control := none,
         updated_at := 0, created_at := 0 }] "t" ⟨"u", "admin"⟩).2.2.2 = 0 ∧
    (get_tools_valves_spec_by_id (fun _ => none) (fun _ => none) "/tools" 9
      [("t", { hasValves := false, valvesSchema := JVal.null,
               validateValves := fun _ => none })]
      [{ id := "t", user_id := none, name := "n", content := "b",
         specs := [], meta := [], valves := [], access_control := none,
         updated_at := 0, created_at := 0 }] "t" ⟨"u", "admin"⟩).2.2.2 = 0 ∧
    ("a" : String) ≠ "b" := by
  refine ⟨rfl, rfl, by decide⟩

/-- C1 (amended): the snapshot-comparing cache-or-load is the
function-module cache: with the record present, it returns the cached
object with zero source executions exactly when both cache maps hold the
id and the stored snapshot equals the current (rewritten) source — leaving
both maps untouched on such a hit — and otherwise executes the source
once, replacing the cache entry (the `fnCacheMiss` tail).  The tool-side
valves-spec endpoint instead serves any existing cache entry for the id
without consulting the source, loading only when no entry exists. -/
theorem claim1_amended {μ : Type} (execFn : String → Option μ)
    (execMod : String → Option ToolModule) (fs : String → Option String)
    (tools_dir : String) (now : Nat) (fdb : List FunctionRec)
    (fns : List (String × μ)) (fcontents : List (String × String))
    (fid : String) (f : FunctionRec) (st : ToolCache) (db : List ToolRec)
    (id : String) (user : UserT) (tool : ToolRec)
    (hf : fdb.find? (fun r => r.id == fid) = some f)
    (ht : get_tool_by_id db id = some tool)
    (hauth : (user.role != "admin" && tool.user_id != none &&
      tool.user_id != some user.id) = false) :
    ((get_function_module_from_cache execFn fdb fns fcontents fid).2.2.2.2 = 0 ↔
      assocGet fcontents fid = some (replace_imports f.content) ∧
        (assocGet fns fid).isSome) ∧
    (assocGet fcontents fid = some (replace_imports f.content) →
      ∀ m, assocGet fns fid = some m →
        (get_function_module_from_cache execFn fdb fns fcontents fid).1 =
            some m ∧
          (get_function_module_from_cache execFn fdb fns fcontents fid).2.2.1 =
            fns ∧
          (get_function_module_from_cache execFn fdb fns
            fcontents fid).2.2.2.1 = fcontents) ∧
    (¬(assocGet fcontents fid = some (replace_imports f.content) ∧
        (assocGet fns fid).isSome) →
      get_function_module_from_cache execFn fdb fns fcontents fid =
        fnCacheMiss execFn
          (if replace_imports f.content != f.content then
            update_function_content fdb fid (replace_imports f.content)
          else fdb) fns fcontents fid (replace_imports f.content)) ∧
    ((get_tools_valves_spec_by_id execMod fs tools_dir now st db id
        user).2.2.2 = 0 ↔ (assocGet st id).isSome) := by
  have heq : get_function_module_from_cache execFn fdb fns fcontents fid =
      (match assocGet fcontents fid, assocGet fns fid with
        | some snap, some m =>
          if snap == replace_imports f.content then
            (some m,
              (if replace_imports f.content != f.content then
                update_function_content fdb fid (replace_imports f.content)
              else fdb), fns, fcontents, 0)
          else fnCacheMiss execFn
            (if replace_imports f.content != f.content then
              update_function_content fdb fid (replace_imports f.content)
            else fdb) fns fcontents fid (replace_imports f.content)
        | _, _ => fnCacheMiss execFn
            (if replace_imports f.content != f.content then
              update_function_content fdb fid (replace_imports f.content)
            else fdb) fns fcontents fid (replace_imports f.content)) := by
    unfold get_function_module_from_cache
    rw [hf]
  refine ⟨?_, ?_, ?_, ?_⟩
  · rw [heq]
    cases hsn : assocGet fcontents fid with
    | none =>
      dsimp only
      rw [fnCacheMiss_count]
      constructor
      · intro h01; exact absurd h01 one_ne_zero
      · rintro ⟨h1, -⟩; cases h1
    | some snap =>
      cases hm : assocGet fns fid with
      | none =>
        dsimp only
        rw [fnCacheMiss_count]
        constructor
        · intro h01; exact absurd h01 one_ne_zero
        · rintro ⟨-, h2⟩; simp at h2
      | some m =>
        dsimp only
        by_cases hEq : (snap == replace_imports f.content) = true
        · have hse : snap = replace_imports f.content := beq_iff_eq.mp hEq
          subst hse
          rw [if_pos hEq]
          constructor
          · intro _; exact ⟨rfl, rfl⟩
          · intro _; rfl
        · rw [if_neg hEq]
          rw [fnCacheMiss_count]
          constructor
          · intro h01; exact absurd h01 one_ne_zero
          · rintro ⟨h1, -⟩
            rw [Option.some.injEq] at h1
            exact (hEq (by rw [h1]; exact beq_self_eq_true _)).elim
  · intro hsnap m hm
    rw [heq, hsnap, hm]
    dsimp only
    rw [if_pos (beq_self_eq_true _)]
    exact ⟨rfl, rfl, rfl⟩
  · intro hmiss
    rw [heq]
    cases hsn : assocGet fcontents fid with
    | none => rfl
    | some snap =>
      cases hm : assocGet fns fid with
      | none => rfl
      | some m =>
        dsimp only
        rw [if_neg ?_]
        intro hEq
        exact hmiss ⟨by rw [hsn, beq_iff_eq.mp hEq], by rw [hm]; rfl⟩
  · unfold get_tools_valves_spec_by_id
    rw [ht]
    dsimp only
    rw [if_neg (by rw [hauth]; simp)]
    cases hc : assocGet st id with
    | none =>
      dsimp only
      simp only [Option.isSome_none]
      rcases hl : load_tool_module_by_id execMod fs tools_dir now db id with
        ⟨m?, db', k⟩
      cases m? <;> simp
    | some m => simp

/-- Witness for C1 (amended): on a function cache whose snapshot equals
the rewritten current source, the lookup performs zero executions. -/
theorem claim1_witness :
    (get_function_module_from_cache (fun _ => some 0)
      [{ id := "f", content := "x", is_active := true }] [("f", 0)]
      [("f", replace_imports "x")] "f").2.2.2.2 = 0 :=
  (claim1_amended (fun _ => some 0) (fun _ => none) (fun _ => none) "/tools"
    0 [{ id := "f", content := "x", is_active := true }] [("f", 0)]
    [("f", replace_imports "x")] "f"
    { id := "f", content := "x", is_active := true } []
    [{ id := "t", user_id := none, name := "n", content := "c", specs := [],
       meta := [], valves := [], access_control := none, updated_at := 0,
       created_at := 0 }] "t" ⟨"u", "admin"⟩
    { id := "t", user_id := none, name := "n", content := "c", specs := [],
      meta := [], valves := [], access_control := none, updated_at := 0,
      created_at := 0 } rfl rfl rfl).1.mpr ⟨rfl, rfl⟩

/-! ## C2 / C4 / C5 / C6: configuration overlay reads and writes -/

/-- With unique ids, the first record matching an id is any member bearing
it. -/
theorem find?_id_eq {db : List ToolRec} {b : ToolRec} {i : String}
    (hn : (db.map (fun t => t.id)).Nodup) (hb : b ∈ db) (hid : b.id = i) :
    db.find? (fun t => t.id == i) = some b := by
  have hsome : (db.find? (fun t => t.id == i)).isSome :=
    List.find?_isSome.mpr ⟨b, hb, by simp [hid]⟩
  obtain ⟨r, hr⟩ := Option.isSome_iff_exists.mp hsome
  have hrmem := List.mem_of_find?_eq_some hr
  have hrp := List.find?_some hr
  have hrid : r.id = i := by simpa using hrp
  have hrb : r = b := by
    apply List.inj_on_of_nodup_map hn hrmem hb
    rw [hrid, hid]
  rw [hr, hrb]

/-- Distinct users derive distinct override ids from one blueprint. -/
theorem override_id_inj {b u1 u2 : String}
    (h : b ++ "_user_" ++ u1 = b ++ "_user_" ++ u2) : u1 = u2 := by
  have hd : (b ++ "_user_" ++ u1).data = (b ++ "_user_" ++ u2).data := by
    rw [h]
  simp only [String.data_append, List.append_assoc] at hd
  have h1 := List.append_cancel_left hd
  have h2 := List.append_cancel_left h1
  cases u1
  cases u2
  exact congrArg String.mk h2

/-- The committed effect of a first per-user configuration write against a
system blueprint whose module is cached: result `ok v` and exactly one
appended override record — `content`/`specs`/`name` copied from the
blueprint, meta carrying the top-level `parent_tool_id` key under the
blueprint's own meta entries, valves holding the validated payload. -/
theorem system_valves_write_eq
    (execMod : String → Option ToolModule) (fs : String → Option String)
    (tools_dir : String) (now : Nat) (st : ToolCache) (db : List ToolRec)
    (bid : String) (cfg : JDict) (U : UserT) (bp : ToolRec) (m : ToolModule)
    (v : JDict)
    (hbp : db.find? (fun t => t.id == bid && t.user_id == none) = some bp)
    (hpc : db.find? (fun t => t.id == (bid ++ "_user_" ++ U.id)) = none)
    (hcache : assocGet st bid = some m)
    (hv : m.hasValves = true)
    (hval : m.validateValves (cfg.filter (fun kv => !kv.2.isNull)) = some v) :
    update_tools_valves_by_id execMod fs tools_dir now st db bid cfg U =
      (.ok v,
        db ++
          [{ id := bid ++ "_user_" ++ U.id,
             user_id := some U.id,
             name := bp.name,
             content := bp.content,
             specs := bp.specs,
             meta := jMerge [("parent_tool_id", JVal.str bid)] bp.meta,
             valves := v,
             access_control := none,
             updated_at := now,
             created_at := now }],
        st) := by
  unfold update_tools_valves_by_id
  rw [hbp]
  dsimp only
  rw [hpc]
  dsimp only
  unfold valvesUpdateFinish
  rw [hcache]
  dsimp only
  rw [hv]
  rw [if_neg (by decide)]
  rw [hval]
  dsimp only
  rw [List.map_append]
  have hmapdb : db.map (fun t =>
      if t.id == (bid ++ "_user_" ++ U.id) then
        { t with valves := v, updated_at := now } else t) = db := by
    have hnone := List.find?_eq_none.mp hpc
    conv_rhs => rw [show db = db.map id from (List.map_id db).symm]
    apply List.map_congr_left
    intro a ha
    rw [if_neg]
    · rfl
    · intro hcontra
      exact hnone a ha hcontra
  rw [hmapdb]
  simp only [List.map]
  rw [if_pos (beq_self_eq_true _)]

/-- Looking up the key of a singleton-merge when the right side does not
carry it yields the singleton's value. -/
theorem assocGet_jMerge_single {k : String} {v : JVal} {b : JDict}
    (hb : b.find? (fun kv => kv.1 == k) = none) :
    assocGet (jMerge [(k, v)] b) k = some v := by
  unfold jMerge assocGet
  simp only [List.map_cons, List.map_nil]
  rw [hb]
  dsimp only
  rw [List.singleton_append]
  have hfind : List.find? (fun kv' => kv'.1 == k)
      ((k, v) :: b.filter (fun kv' => !([(k, v)].any fun kv => kv.1 == kv'.1)))
      = some (k, v) :=
    List.find?_cons_of_pos _ (beq_self_eq_true k)
  rw [hfind]
  rfl

/-- C2 (counterexample): with an empty module cache, a first per-user
configuration write against a system blueprint also updates the blueprint
row itself (the loader persists the rewritten source and bumps its
`updated_at` from 0 to 9), refuting "creates or updates only the override
record". -/
theorem claim2_counterexample :
    ((update_tools_valves_by_id
      (fun _ => some { hasValves := true, valvesSchema := JVal.null,
                       validateValves := fun d => some d })
      (fun _ => none) "/tools" 9 []
      [{ id := "weather", user_id := none, name := "Weather",
         content := "x", specs := [], meta := [], valves := [],
         access_control := none, updated_at := 0, created_at := 0 }]
      "weather" [("unit", JVal.str "celsius")] ⟨"alice", "user"⟩).2.1.map
        (fun t => (t.id, t.updated_at))) =
      [("weather", 9), ("weather_user_alice", 9)] := by
  rfl

/-- C2 (amended): for a system blueprint B whose module is in the process
cache, writing cfg for (B.id, U) appends exactly the derived override
record and touches nothing else; afterwards reading for (B.id, U) returns
the validated cfg, B's row (its configuration blob included) is unchanged,
and reading for any other user U2 without an override still returns B's
original configuration.  (On a cache miss the loader additionally persists
B's rewritten source and bumps B's `updated_at`, as per the
counterexample.) -/
theorem claim2_amended
    (execMod : String → Option ToolModule) (fs : String → Option String)
    (tools_dir : String) (now : Nat) (st : ToolCache) (db : List ToolRec)
    (bid : String) (cfg : JDict) (U U2 : UserT) (bp : ToolRec)
    (m : ToolModule) (v : JDict)
    (hnodup : (db.map (fun t => t.id)).Nodup)
    (hbp : db.find? (fun t => t.id == bid && t.user_id == none) = some bp)
    (hpc : db.find? (fun t => t.id == (bid ++ "_user_" ++ U.id)) = none)
    (hpc2 : db.find? (fun t => t.id == (bid ++ "_user_" ++ U2.id) &&
      t.user_id == some U2.id) = none)
    (hU2 : U2.id ≠ U.id)
    (hcache : assocGet st bid = some m)
    (hv : m.hasValves = true)
    (hval : m.validateValves (cfg.filter (fun kv => !kv.2.isNull)) = some v) :
    (update_tools_valves_by_id execMod fs tools_dir now st db bid cfg U).1 =
        .ok v ∧
    (update_tools_valves_by_id execMod fs tools_dir now st db bid cfg U).2.1 =
        db ++
          [{ id := bid ++ "_user_" ++ U.id,
             user_id := some U.id,
             name := bp.name,
             content := bp.content,
             specs := bp.specs,
             meta := jMerge [("parent_tool_id", JVal.str bid)] bp.meta,
             valves := v,
             access_control := none,
             updated_at := now,
             created_at := now }] ∧
    get_tools_valves_by_id
        (update_tools_valves_by_id execMod fs tools_dir now st db bid
          cfg U).2.1 bid U = .ok v ∧
    get_tool_by_id
        (update_tools_valves_by_id execMod fs tools_dir now st db bid
          cfg U).2.1 bid = some bp ∧
    get_tools_valves_by_id
        (update_tools_valves_by_id execMod fs tools_dir now st db bid
          cfg U).2.1 bid U2 = .ok bp.valves := by
  have hW := system_valves_write_eq execMod fs tools_dir now st db bid cfg U
    bp m v hbp hpc hcache hv hval
  have hbpmem := List.mem_of_find?_eq_some hbp
  have hbppred := List.find?_some hbp
  rw [Bool.and_eq_true, beq_iff_eq] at hbppred
  have hbpid : bp.id = bid := hbppred.1
  have hbpnone : bp.user_id = none := by
    have := hbppred.2
    simpa using this
  have hfindbid :
      (db ++
        [({ id := bid ++ "_user_" ++ U.id,
            user_id := some U.id,
            name := bp.name,
            content := bp.content,
            specs := bp.specs,
            meta := jMerge [("parent_tool_id", JVal.str bid)] bp.meta,
            valves := v,
            access_control := none,
            updated_at := now,
            created_at := now } : ToolRec)]).find?
        (fun t => t.id == bid) = some bp := by
    rw [List.find?_append, find?_id_eq hnodup hbpmem hbpid]
    rfl
  refine ⟨by rw [hW], by rw [hW], ?_, ?_, ?_⟩
  · rw [hW]
    unfold get_tools_valves_by_id
    dsimp only
    rw [List.find?_append]
    have hdb1 : db.find? (fun t =>
        t.id == (bid ++ "_user_" ++ U.id) && t.user_id == some U.id) =
        none := by
      rw [List.find?_eq_none]
      intro t ht hcontra
      rw [Bool.and_eq_true] at hcontra
      exact absurd hcontra.1
        (by simpa using List.find?_eq_none.mp hpc t ht)
    rw [hdb1]
    rw [List.find?_cons_of_pos _ (by simp)]
    dsimp only [Option.or]
  · rw [hW]
    exact hfindbid
  · rw [hW]
    unfold get_tools_valves_by_id
    dsimp only
    rw [List.find?_append]
    rw [hpc2]
    rw [List.find?_cons_of_neg _ ?hneg, List.find?_nil]
    case hneg =>
      intro hcontra
      rw [Bool.and_eq_true] at hcontra
      exact (Ne.symm hU2) (by simpa using hcontra.2)
    dsimp only [Option.or]
    rw [hfindbid]
    dsimp only
    rw [hbpnone]
    rw [if_neg (by simp)]

/-- Witness for C2 (amended): Bob still reads the blueprint's original
(empty) configuration after Alice's write. -/
theorem claim2_witness :
    get_tools_valves_by_id
      (update_tools_valves_by_id
        (fun _ => none) (fun _ => none) "/tools" 7
        [("weather", { hasValves := true, valvesSchema := JVal.null,
                       validateValves := fun d => some d })]
        [{ id := "weather", user_id := none, name := "Weather",
           content := "pass", specs := [], meta := [], valves := [],
           access_control := none, updated_at := 0, created_at := 0 }]
        "weather" [("unit", JVal.str "celsius")] ⟨"alice", "user"⟩).2.1
      "weather" ⟨"bob", "user"⟩ = .ok [] :=
  (claim2_amended (fun _ => none) (fun _ => none) "/tools" 7
    [("weather", { hasValves := true, valvesSchema := JVal.null,
                   validateValves := fun d => some d })]
    [{ id := "weather", user_id := none, name := "Weather",
       content := "pass", specs := [], meta := [], valves := [],
       access_control := none, updated_at := 0, created_at := 0 }]
    "weather" [("unit", JVal.str "celsius")] ⟨"alice", "user"⟩
    ⟨"bob", "user"⟩
    { id := "weather", user_id := none, name := "Weather",
      content := "pass", specs := [], meta := [], valves := [],
      access_control := none, updated_at := 0, created_at := 0 }
    { hasValves := true, valvesSchema := JVal.null,
      validateValves := fun d => some d }
    [("unit", JVal.str "celsius")]
    (by decide) rfl rfl rfl (by decide) rfl rfl rfl).2.2.2.2

/-- C4 (counterexample): the override created by the first per-user write
carries `parent_tool_id` as a top-level meta key, not under
`meta.manifest` — here the created record's `manifest` object is empty,
refuting `metadata.manifest.parent_tool_id = B.id`. -/
theorem claim4_counterexample :
    ((update_tools_valves_by_id
      (fun _ => none) (fun _ => none) "/tools" 7
      [("weather", { hasValves := true, valvesSchema := JVal.null,
                     validateValves := fun d => some d })]
      [{ id := "weather", user_id := none, name := "Weather",
         content := "pass", specs := [], meta := [("manifest", JVal.obj [])],
         valves := [], access_control := none, updated_at := 0,
         created_at := 0 }]
      "weather" [("unit", JVal.str "celsius")] ⟨"alice", "user"⟩).2.1.map
        (fun t => t.meta)) =
      [[("manifest", JVal.obj [])],
       [("parent_tool_id", JVal.str "weather"), ("manifest", JVal.obj [])]] ∧
    (match assocGet [("parent_tool_id", JVal.str "weather"),
        ("manifest", JVal.obj [])] "manifest" with
     | some (JVal.obj mm) => assocGet mm "parent_tool_id"
     | _ => none) = none := by
  exact ⟨rfl, rfl⟩

/-- C4 (amended): the first configuration write for a system blueprint
(module cached) creates an override copying `content`, `specs` and `name`
from the blueprint, placing `parent_tool_id = B.id` as a top-level meta
key — overridden by any same-named key already in the blueprint's meta,
and not under `meta.manifest` — and its configuration holds the
schema-validated incoming value. -/
theorem claim4_amended
    (execMod : String → Option ToolModule) (fs : String → Option String)
    (tools_dir : String) (now : Nat) (st : ToolCache) (db : List ToolRec)
    (bid : String) (cfg : JDict) (U : UserT) (bp : ToolRec) (m : ToolModule)
    (v : JDict)
    (hbp : db.find? (fun t => t.id == bid && t.user_id == none) = some bp)
    (hpc : db.find? (fun t => t.id == (bid ++ "_user_" ++ U.id)) = none)
    (hcache : assocGet st bid = some m)
    (hv : m.hasValves = true)
    (hval : m.validateValves (cfg.filter (fun kv => !kv.2.isNull)) = some v) :
    (update_tools_valves_by_id execMod fs tools_dir now st db bid cfg U).2.1 =
      db ++
        [{ id := bid ++ "_user_" ++ U.id,
           user_id := some U.id,
           name := bp.name,
           content := bp.content,
           specs := bp.specs,
           meta := jMerge [("parent_tool_id", JVal.str bid)] bp.meta,
           valves := v,
           access_control := none,
           updated_at := now,
           created_at := now }] ∧
    (bp.meta.find? (fun kv => kv.1 == "parent_tool_id") = none →
      assocGet (jMerge [("parent_tool_id", JVal.str bid)] bp.meta)
        "parent_tool_id" = some (JVal.str bid)) := by
  refine ⟨?_, fun hb => assocGet_jMerge_single hb⟩
  rw [system_valves_write_eq execMod fs tools_dir now st db bid cfg U bp m v
    hbp hpc hcache hv hval]

/-- Witness for C4 (amended) at the concrete weather blueprint. -/
theorem claim4_witness :
    (update_tools_valves_by_id
      (fun _ => none) (fun _ => none) "/tools" 7
      [("weather", { hasValves := true, valvesSchema := JVal.null,
                     validateValves := fun d => some d })]
      [{ id := "weather", user_id := none, name := "Weather",
         content := "pass", specs := [], meta := [], valves := [],
         access_control := none, updated_at := 0, created_at := 0 }]
      "weather" [("unit", JVal.str "celsius")] ⟨"alice", "user"⟩).2.1 =
      [{ id := "weather", user_id := none, name := "Weather",
         content := "pass", specs := [], meta := [], valves := [],
         access_control := none, updated_at := 0, created_at := 0 }] ++
        [{ id := "weather" ++ "_user_" ++ "alice",
           user_id := some "alice",
           name := "Weather",
           content := "pass",
           specs := [],
           meta := jMerge [("parent_tool_id", JVal.str "weather")] [],
           valves := [("unit", JVal.str "celsius")],
           access_control := none,
           updated_at := 7,
           created_at := 7 }] :=
  (claim4_amended (fun _ => none) (fun _ => none) "/tools" 7
    [("weather", { hasValves := true, valvesSchema := JVal.null,
                   validateValves := fun d => some d })]
    [{ id := "weather", user_id := none, name := "Weather",
       content := "pass", specs := [], meta := [], valves := [],
       access_control := none, updated_at := 0, created_at := 0 }]
    "weather" [("unit", JVal.str "celsius")] ⟨"alice", "user"⟩
    { id := "weather", user_id := none, name := "Weather",
      content := "pass", specs := [], meta := [], valves := [],
      access_control := none, updated_at := 0, created_at := 0 }
    { hasValves := true, valvesSchema := JVal.null,
      validateValves := fun d => some d }
    [("unit", JVal.str "celsius")] rfl rfl rfl rfl rfl).1

/-- C5 (counterexample): an administrator who is not the owner writes the
configuration of a user-owned tool — the endpoint answers with the generic
400 error (its internal 404 is re-wrapped by the handler), not success,
refuting "succeeds for administrators" (and a write-grantee or stranger
takes the same path). -/
theorem claim5_counterexample :
    (update_tools_valves_by_id
      (fun _ => none) (fun _ => none) "/tools" 3 []
      [{ id := "t", user_id := some "o", name := "n", content := "c",
         specs := [], meta := [], valves := [("a", JVal.num 1)],
         access_control := some [("write", ["g"])], updated_at := 0,
         created_at := 0 }]
      "t" [] ⟨"a", "admin"⟩).1 = .error .badRequest := by
  rfl

/-- C5 (amended): for a non-system tool owned by O, a configuration write
succeeds exactly when the writer is O — updating the record's own
configuration in place with no override record created — and every other
principal (administrators and access-control write-grantees included)
receives the generic 400 error produced from the endpoint's internal
not-found, not a PermissionDenied. -/
theorem claim5_amended
    (execMod : String → Option ToolModule) (fs : String → Option String)
    (tools_dir : String) (now : Nat) (st : ToolCache) (db : List ToolRec)
    (tid : String) (cfg : JDict) (O : UserT) (T : ToolRec) (m : ToolModule)
    (v : JDict)
    (hnosys : db.find? (fun t => t.id == tid && t.user_id == none) = none)
    (hT : db.find? (fun t => t.id == tid && t.user_id == some O.id) = some T)
    (hcache : assocGet st T.id = some m)
    (hv : m.hasValves = true)
    (hval : m.validateValves (cfg.filter (fun kv => !kv.2.isNull)) = some v) :
    update_tools_valves_by_id execMod fs tools_dir now st db tid cfg O =
      (.ok v, db.map (fun t => if t.id == T.id then
        { t with valves := v, updated_at := now } else t), st) ∧
    (∀ P : UserT,
      db.find? (fun t => t.id == tid && t.user_id == some P.id) = none →
      update_tools_valves_by_id execMod fs tools_dir now st db tid cfg P =
        (.error .badRequest, db, st)) := by
  constructor
  · unfold update_tools_valves_by_id
    rw [hnosys]
    dsimp only
    rw [hT]
    dsimp only
    unfold valvesUpdateFinish
    rw [hcache]
    dsimp only
    rw [hv]
    rw [if_neg (by decide)]
    rw [hval]
  · intro P hP
    unfold update_tools_valves_by_id
    rw [hnosys]
    dsimp only
    rw [hP]

/-- Witness for C5 (amended): the non-owner arm at a concrete store, for
an administrator principal. -/
theorem claim5_witness :
    update_tools_valves_by_id
      (fun _ => none) (fun _ => none) "/tools" 3
      [("t", { hasValves := true, valvesSchema := JVal.null,
               validateValves := fun d => some d })]
      [{ id := "t", user_id := some "o", name := "n", content := "c",
         specs := [], meta := [], valves := [], access_control := none,
         updated_at := 0, created_at := 0 }]
      "t" [] ⟨"a", "admin"⟩ =
      (.error .badRequest,
        [{ id := "t", user_id := some "o", name := "n", content := "c",
           specs := [], meta := [], valves := [], access_control := none,
           updated_at := 0, created_at := 0 }],
        [("t", { hasValves := true, valvesSchema := JVal.null,
                 validateValves := fun d => some d })]) :=
  (claim5_amended (fun _ => none) (fun _ => none) "/tools" 3
    [("t", { hasValves := true, valvesSchema := JVal.null,
             validateValves := fun d => some d })]
    [{ id := "t", user_id := some "o", name := "n", content := "c",
       specs := [], meta := [], valves := [], access_control := none,
       updated_at := 0, created_at := 0 }]
    "t" [] ⟨"o", "user"⟩
    { id := "t", user_id := some "o", name := "n", content := "c",
      specs := [], meta := [], valves := [], access_control := none,
      updated_at := 0, created_at := 0 }
    { hasValves := true, valvesSchema := JVal.null,
      validateValves := fun d => some d }
    [] rfl rfl rfl rfl rfl).2 ⟨"a", "admin"⟩ rfl

/-- C6 (counterexample): a principal holding an explicit `read` grant on a
user-owned tool (not owner, not admin, no personal override) asks for its
configuration and receives 401 Unauthorized — the endpoint never consults
the access-control descriptor. -/
theorem claim6_counterexample :
    get_tools_valves_by_id
      [{ id := "t", user_id := some "o", name := "n", content := "c",
         specs := [], meta := [], valves := [("a", JVal.num 1)],
         access_control := some [("read", ["p"])], updated_at := 0,
         created_at := 0 }]
      "t" ⟨"p", "user"⟩ = .error .unauthorized ∧
    has_access "p" "read" (some [("read", ["p"])]) = true := by
  exact ⟨rfl, by decide⟩

/-- C6 (amended): the valves read succeeds only for the record's owner, an
administrator, or when the record is a system blueprint (or through a
personal override); a principal with an explicit read grant in the
access-control descriptor — not owner, not admin, no override — receives
PermissionDenied despite the grant. -/
theorem claim6_amended (db : List ToolRec) (tid : String) (user : UserT)
    (bp : ToolRec) (o : String)
    (hnpc : db.find? (fun t => t.id == (tid ++ "_user_" ++ user.id) &&
      t.user_id == some user.id) = none)
    (hbp : db.find? (fun t => t.id == tid) = some bp)
    (howner : bp.user_id = some o) (hne : o ≠ user.id)
    (hrole : user.role ≠ "admin")
    (hgrant : has_access user.id "read" bp.access_control = true) :
    get_tools_valves_by_id db tid user = .error .unauthorized := by
  unfold get_tools_valves_by_id
  dsimp only
  rw [hnpc]
  rw [hbp]
  dsimp only
  rw [if_pos]
  rw [howner]
  simp [hne, hrole]

/-- Witness for C6 (amended) at the concrete read-granted principal. -/
theorem claim6_witness :
    get_tools_valves_by_id
      [{ id := "t", user_id := some "o", name := "n", content := "c",
         specs := [], meta := [], valves := [],
         access_control := some [("read", ["p"])], updated_at := 0,
         created_at := 0 }]
      "t" ⟨"p", "user"⟩ = .error .unauthorized :=
  claim6_amended
    [{ id := "t", user_id := some "o", name := "n", content := "c",
       specs := [], meta := [], valves := [],
       access_control := some [("read", ["p"])], updated_at := 0,
       created_at := 0 }]
    "t" ⟨"p", "user"⟩
    { id := "t", user_id := some "o", name := "n", content := "c",
      specs := [], meta := [], valves := [],
      access_control := some [("read", ["p"])], updated_at := 0,
      created_at := 0 }
    "o" rfl rfl rfl (by decide) (by decide) (by decide)

/-! ## C10: frame of updates to system tools -/

/-- Updating by id commutes with `find?` by id (the update keeps ids). -/
theorem find?_map_applyUpdate (db : List ToolRec) (i : String)
    (u : ToolUpdate) (now : Nat) :
    (db.map (fun t => if t.id == i then applyUpdate t u now else t)).find?
      (fun t => t.id == i) =
    (db.find? (fun t => t.id == i)).map (fun t => applyUpdate t u now) := by
  induction db with
  | nil => rfl
  | cons t rest ih =>
    by_cases h : (t.id == i) = true
    · simp only [List.map_cons]
      rw [if_pos h]
      have h1 : List.find? (fun t => t.id == i)
          (applyUpdate t u now :: rest.map (fun t =>
            if t.id == i then applyUpdate t u now else t)) =
          some (applyUpdate t u now) :=
        List.find?_cons_of_pos _ h
      have h2 : List.find? (fun t => t.id == i) (t :: rest) = some t :=
        List.find?_cons_of_pos _ h
      rw [h1, h2]
      rfl
    · simp only [List.map_cons]
      rw [if_neg h]
      have h1 : List.find? (fun t => t.id == i)
          (t :: rest.map (fun t =>
            if t.id == i then applyUpdate t u now else t)) =
          List.find? (fun t => t.id == i) (rest.map (fun t =>
            if t.id == i then applyUpdate t u now else t)) :=
        List.find?_cons_of_neg _ h
      have h2 : List.find? (fun t => t.id == i) (t :: rest) =
          List.find? (fun t => t.id == i) rest :=
        List.find?_cons_of_neg _ h
      rw [h1, h2]
      exact ih

/-- C10: an authorized update of a system tool can change only `name` and
`meta` (plus `updated_at`): the returned record keeps the tool's
`content`, `specs`, `access_control`, `id`, `user_id` and `created_at`;
with neither `name` nor `meta` supplied the endpoint returns the record
with the store untouched; every other record of the store is untouched in
all cases, as is the module cache. -/
theorem claim10_system_update_frame
    (execMod : String → Option ToolModule) (specsOf : ToolModule → List JVal)
    (now : Nat) (st : ToolCache) (db : List ToolRec) (id : String)
    (form : ToolFormPartial) (user : UserT) (tool : ToolRec)
    (hf : get_tool_by_id db id = some tool) (hsys : tool.user_id = none) :
    (∃ t', (update_tools_by_id execMod specsOf now st db id form user).1 =
        .ok t' ∧
      t'.content = tool.content ∧ t'.specs = tool.specs ∧
      t'.access_control = tool.access_control ∧ t'.id = tool.id ∧
      t'.user_id = tool.user_id ∧ t'.created_at = tool.created_at) ∧
    (form.name = none → form.meta = none →
      update_tools_by_id execMod specsOf now st db id form user =
        (.ok tool, db, st)) ∧
    (∀ r ∈ db, r.id ≠ id → r ∈
      (update_tools_by_id execMod specsOf now st db id form user).2.1) ∧
    (update_tools_by_id execMod specsOf now st db id form user).2.2 = st := by
  by_cases hnm : (form.name.isNone && form.meta.isNone) = true
  · have heq : update_tools_by_id execMod specsOf now st db id form user =
        (.ok tool, db, st) := by
      unfold update_tools_by_id
      rw [hf]
      dsimp only
      rw [hsys]
      rw [if_neg (by simp)]
      rw [if_pos (show ((none : Option String) == none) = true from rfl)]
      rw [if_pos hnm]
    rw [heq]
    exact ⟨⟨tool, rfl, rfl, rfl, rfl, rfl, rfl, rfl⟩,
      fun _ _ => rfl, fun r hr _ => hr, rfl⟩
  · have heq : update_tools_by_id execMod specsOf now st db id form user =
        (.ok (applyUpdate tool
            { name := form.name,
              meta := form.meta.map (fun mm => jMerge tool.meta mm) } now),
          db.map (fun t => if t.id == id then applyUpdate t
            { name := form.name,
              meta := form.meta.map (fun mm => jMerge tool.meta mm) } now
            else t), st) := by
      unfold update_tools_by_id
      rw [hf]
      dsimp only
      rw [hsys]
      rw [if_neg (by simp)]
      rw [if_pos (show ((none : Option String) == none) = true from rfl)]
      rw [if_neg hnm]
      unfold update_tool_by_id get_tool_by_id
      dsimp only
      rw [find?_map_applyUpdate]
      rw [show db.find? (fun t => t.id == id) = some tool from hf]
      rfl
    rw [heq]
    refine ⟨⟨applyUpdate tool
        { name := form.name,
          meta := form.meta.map (fun mm => jMerge tool.meta mm) } now,
      rfl, rfl, rfl, rfl, rfl, rfl, rfl⟩, ?_, ?_, rfl⟩
    · intro h1 h2
      exact absurd (by rw [h1, h2]; rfl) hnm
    · intro r hr hne
      refine List.mem_map.mpr ⟨r, hr, ?_⟩
      show (if r.id == id then applyUpdate r
          { name := form.name,
            meta := form.meta.map (fun mm => jMerge tool.meta mm) } now
          else r) = r
      rw [if_neg]
      intro hcontra
      exact hne (by simpa using hcontra)

/-- Witness for C10 at a concrete system tool and a name-only update. -/
theorem claim10_witness :
    ∃ t', (update_tools_by_id (fun _ => none) (fun _ => []) 4 []
        [{ id := "t", user_id := none, name := "n", content := "c",
           specs := [], meta := [], valves := [], access_control := none,
           updated_at := 0, created_at := 0 }] "t"
        { name := some "m" } ⟨"u", "user"⟩).1 = .ok t' ∧
      t'.content = "c" ∧ t'.specs = [] ∧ t'.access_control = none ∧
      t'.id = "t" ∧ t'.user_id = none ∧ t'.created_at = 0 :=
  (claim10_system_update_frame (fun _ => none) (fun _ => []) 4 []
    [{ id := "t", user_id := none, name := "n", content := "c",
       specs := [], meta := [], valves := [], access_control := none,
       updated_at := 0, created_at := 0 }] "t" { name := some "m" }
    ⟨"u", "user"⟩
    { id := "t", user_id := none, name := "n", content := "c",
      specs := [], meta := [], valves := [], access_control := none,
      updated_at := 0, created_at := 0 } rfl rfl).1

/-! ## C3: visibility listing -/

/-- C3 (counterexample): with one tool owned by the caller
(`updated_at = 1`) and one system blueprint (`updated_at = 2`), the
returned sequence places the blueprint's appended copy after the older
owned tool, so the sequence as a whole is not ordered by `updated_at`
descending. -/
theorem claim3_counterexample :
    ¬ List.Pairwise
      (fun a b : ToolRec × Option UserT => b.1.updated_at ≤ a.1.updated_at)
      (get_tools_by_user_id
        [{ id := "a", user_id := some "u", name := "", content := "",
           specs := [], meta := [], valves := [], access_control := none,
           updated_at := 1, created_at := 0 },
         { id := "s", user_id := none, name := "", content := "",
           specs := [], meta := [], valves := [], access_control := none,
           updated_at := 2, created_at := 0 }] [] "u" "read") := by
  decide

/-- C3 (amended): `listVisible` returns the records owned by the
principal or granted the requested permission level by the access-control
descriptor (sorted by `updated_at` descending), followed by all system
blueprints (again sorted by `updated_at` descending, and duplicated when
already granted); membership is the stated union, each segment is sorted,
but the concatenation as a whole is not (see the counterexample) and no
id tie-break exists. -/
theorem claim3_amended (db : List ToolRec) (users : List UserT)
    (uid perm : String) :
    (∀ t : ToolRec,
      t ∈ (get_tools_by_user_id db users uid perm).map Prod.fst ↔
        (t ∈ db ∧ (t.user_id = some uid ∨
          has_access uid perm t.access_control = true ∨ t.user_id = none))) ∧
    List.Sorted (fun a b : ToolRec => b.updated_at ≤ a.updated_at)
      ((sortByUpdatedDesc db).filter (fun t =>
        t.user_id == some uid || has_access uid perm t.access_control)) ∧
    List.Sorted (fun a b : ToolRec => b.updated_at ≤ a.updated_at)
      ((get_system_tools db).map Prod.fst) := by
  haveI htot : IsTotal ToolRec (fun a b => b.updated_at ≤ a.updated_at) :=
    ⟨fun a b => le_total b.updated_at a.updated_at⟩
  haveI htrans : IsTrans ToolRec (fun a b => b.updated_at ≤ a.updated_at) :=
    ⟨fun a b c hab hbc => le_trans hbc hab⟩
  refine ⟨?_, ?_, ?_⟩
  · intro t
    unfold get_tools_by_user_id get_system_tools sortByUpdatedDesc
      prepareToolForResponse
    simp only [List.map_append, List.mem_append, List.map_map,
      Function.comp, List.mem_filter, List.mem_insertionSort, List.mem_map,
      Bool.or_eq_true, beq_iff_eq]
    constructor
    · rintro (⟨a, ⟨ha, hpa⟩, rfl⟩ | ⟨a, ⟨ha, hpa⟩, rfl⟩)
      · exact ⟨ha, by tauto⟩
      · refine ⟨ha, Or.inr (Or.inr ?_)⟩
        simpa using hpa
    · rintro ⟨ht, hcase⟩
      rcases hcase with h | h | h
      · exact Or.inl ⟨t, ⟨ht, Or.inl h⟩, rfl⟩
      · exact Or.inl ⟨t, ⟨ht, Or.inr h⟩, rfl⟩
      · exact Or.inr ⟨t, ⟨ht, by simp [h]⟩, rfl⟩
  · unfold sortByUpdatedDesc
    exact (List.sorted_insertionSort _ db).filter _
  · unfold get_system_tools sortByUpdatedDesc prepareToolForResponse
    rw [List.map_map]
    rw [show (Prod.fst ∘ fun t : ToolRec => (t, (none : Option UserT))) =
      fun t => t from rfl]
    rw [List.map_id']
    exact List.sorted_insertionSort _ _

/-! ## C9: batch dependency collection -/

theorem pySplit_ne_nil (c : Char) (s : List Char) : pySplit c s ≠ [] := by
  cases s with
  | nil => simp [pySplit]
  | cons x xs =>
    unfold pySplit
    by_cases h : x = c
    · rw [if_pos h]; simp
    · rw [if_neg h]
      cases pySplit c xs <;> simp

theorem pySplit_no_sep {c : Char} {x : List Char} (h : c ∉ x) :
    pySplit c x = [x] := by
  induction x with
  | nil => rfl
  | cons a as ih =>
    unfold pySplit
    rw [if_neg (by rintro rfl; exact h (List.mem_cons_self _ _))]
    rw [ih (fun hm => h (List.mem_cons_of_mem _ hm))]

theorem pySplit_append_sep {c : Char} {z : List Char} :
    ∀ {x : List Char}, c ∉ x →
      pySplit c (x ++ c :: z) = x :: pySplit c z := by
  intro x
  induction x with
  | nil =>
    intro _
    show pySplit c (c :: z) = [] :: pySplit c z
    rw [pySplit]
    rw [if_pos rfl]
  | cons a as ih =>
    intro h
    show pySplit c (a :: (as ++ c :: z)) = (a :: as) :: pySplit c z
    rw [pySplit]
    rw [if_neg (by rintro rfl; exact h (List.mem_cons_self _ _))]
    rw [ih (fun hm => h (List.mem_cons_of_mem _ hm))]

theorem mem_pySplit_not_sep (c : Char) :
    ∀ (s : List Char), ∀ p ∈ pySplit c s, c ∉ p := by
  intro s
  induction s with
  | nil =>
    intro p hp
    simp [pySplit] at hp
    subst hp
    simp
  | cons x xs ih =>
    intro p hp
    unfold pySplit at hp
    by_cases h : x = c
    · rw [if_pos h] at hp
      rcases List.mem_cons.mp hp with rfl | hp'
      · simp
      · exact ih p hp'
    · rw [if_neg h] at hp
      cases hsp : pySplit c xs with
      | nil => exact absurd hsp (pySplit_ne_nil c xs)
      | cons hh tt =>
        rw [hsp] at hp
        rcases List.mem_cons.mp hp with rfl | hp'
        · intro hmem
          rcases List.mem_cons.mp hmem with rfl | hmm
          · exact h rfl
          · exact ih hh (by rw [hsp]; exact List.mem_cons_self _ _) hmm
        · exact ih p (by rw [hsp]; exact List.mem_cons_of_mem _ hp')

theorem pyStrip_cons_space (l : List Char) :
    pyStrip (' ' :: l) = pyStrip l := by
  unfold pyStrip
  rw [List.dropWhile_cons]
  rw [if_pos (by decide)]

theorem pyStrip_eq_rdrop (l : List Char) :
    pyStrip l = List.rdropWhile isPySpace (l.dropWhile isPySpace) := rfl

theorem pyStrip_sublist (l : List Char) : List.Sublist (pyStrip l) l := by
  rw [pyStrip_eq_rdrop]
  exact (List.rdropWhile_prefix _ _).sublist.trans
    (List.dropWhile_suffix _).sublist

theorem not_mem_pyStrip {c : Char} {l : List Char} (h : c ∉ l) :
    c ∉ pyStrip l :=
  fun hm => h ((pyStrip_sublist l).subset hm)

theorem dropWhile_pyStrip (y : List Char)
    (hy : y.dropWhile isPySpace = y) :
    (y.rdropWhile isPySpace).dropWhile isPySpace =
      y.rdropWhile isPySpace := by
  cases hr : y.rdropWhile isPySpace with
  | nil => rfl
  | cons a t =>
    have hpre : (a :: t) <+: y := by
      rw [← hr]
      exact List.rdropWhile_prefix _ _
    obtain ⟨s, hs⟩ := hpre
    have hpa : isPySpace a = false := by
      by_contra hcontra
      rw [Bool.not_eq_false] at hcontra
      have hyy := hy
      rw [← hs] at hyy
      rw [show ((a :: t) ++ s : List Char) = a :: (t ++ s) from rfl] at hyy
      rw [List.dropWhile_cons, if_pos hcontra] at hyy
      have hlen := congrArg List.length hyy
      have hle : ((t ++ s).dropWhile isPySpace).length ≤ (t ++ s).length :=
        (List.dropWhile_suffix _).sublist.length_le
      simp only [List.length_cons, List.length_append] at hlen hle
      omega
    rw [List.dropWhile_cons, if_neg (by simp [hpa])]

theorem pyStrip_idem (l : List Char) : pyStrip (pyStrip l) = pyStrip l := by
  rw [pyStrip_eq_rdrop l, pyStrip_eq_rdrop]
  rw [dropWhile_pyStrip (l.dropWhile isPySpace)
    (List.dropWhile_idempotent _ _)]
  rw [List.rdropWhile_idempotent]

/-- Split-after-join round trip: joining stripped, comma-free entries with
`", "` and re-splitting/stripping/pruning gives back the pruned entries. -/
theorem joinSplitStrip :
    ∀ (u : List (List Char)),
      (∀ x ∈ u, ',' ∉ x) → (∀ x ∈ u, pyStrip x = x) →
      ((pySplit ',' (pyJoin [',', ' '] u)).map pyStrip).filter
          (fun r => !r.isEmpty) =
        u.filter (fun r => !r.isEmpty)
  | [], _, _ => rfl
  | [x], hc, hs => by
    show ((pySplit ',' x).map pyStrip).filter (fun r => !r.isEmpty) = _
    rw [pySplit_no_sep (hc x (List.mem_cons_self _ _))]
    rw [show ([x].map pyStrip) = [pyStrip x] from rfl]
    rw [hs x (List.mem_cons_self _ _)]
  | x :: y :: rest, hc, hs => by
    have hx : ',' ∉ x := hc x (List.mem_cons_self _ _)
    have hjoin : pyJoin [',', ' '] (x :: y :: rest) =
        x ++ ',' :: (' ' :: pyJoin [',', ' '] (y :: rest)) := by
      show x ++ [',', ' '] ++ pyJoin [',', ' '] (y :: rest) = _
      rw [List.append_assoc]
      rfl
    rw [hjoin, pySplit_append_sep hx]
    cases hsp : pySplit ',' (pyJoin [',', ' '] (y :: rest)) with
    | nil => exact absurd hsp (pySplit_ne_nil _ _)
    | cons hh tt =>
      have hsplit2 : pySplit ',' (' ' :: pyJoin [',', ' '] (y :: rest)) =
          (' ' :: hh) :: tt := by
        unfold pySplit
        rw [if_neg (by decide)]
        rw [hsp]
      rw [hsplit2]
      have ih := joinSplitStrip (y :: rest)
        (fun z hz => hc z (List.mem_cons_of_mem _ hz))
        (fun z hz => hs z (List.mem_cons_of_mem _ hz))
      rw [hsp] at ih
      rw [show ((x :: (' ' :: hh) :: tt).map pyStrip) =
        pyStrip x :: pyStrip (' ' :: hh) :: tt.map pyStrip from rfl]
      rw [pyStrip_cons_space, hs x (List.mem_cons_self _ _)]
      rw [show ((hh :: tt).map pyStrip) = pyStrip hh :: tt.map pyStrip
        from rfl] at ih
      conv_lhs => rw [List.filter_cons]
      conv_rhs => rw [List.filter_cons]
      rw [ih]

theorem addFrontmatterDeps_eq (acc : List (List Char))
    (fm : List (List Char × List Char)) :
    addFrontmatterDeps acc fm = (depsOfFrontmatter fm).foldl setAdd acc := by
  unfold addFrontmatterDeps depsOfFrontmatter
  cases assocGet fm "requirements".data with
  | none => rfl
  | some r =>
    dsimp only
    by_cases hr : r.isEmpty = true
    · rw [if_pos hr, if_pos hr]
      rfl
    · rw [if_neg hr, if_neg hr]
      rw [List.foldl_map]

theorem foldl_deps_eq {X : Type} (g : X → List (List Char)) :
    ∀ (items : List X) (acc : List (List Char)),
      items.foldl (fun a i => (g i).foldl setAdd a) acc =
        ((items.map g).flatten).foldl setAdd acc := by
  intro items
  induction items with
  | nil => intro acc; rfl
  | cons i is ih =>
    intro acc
    rw [List.foldl_cons, ih, List.map_cons, List.flatten_cons,
      List.foldl_append]

/-- The batch entry point equals: collect the amended union, then hand its
`", "`-join to the per-frontmatter installer when nonempty. -/
theorem batch_eq_installer (users : List UserT)
    (fs : String → Option String) (tools_dir : String)
    (fdb : List FunctionRec) (db : List ToolRec) :
    install_tool_and_function_dependencies users fs tools_dir fdb db =
      (if (amendedDependencyUnion users fs tools_dir fdb db).isEmpty then
        none
      else install_frontmatter_requirements
        (pyJoin ", ".data (amendedDependencyUnion users fs tools_dir fdb
          db))) := by
  unfold install_tool_and_function_dependencies amendedDependencyUnion
    dedupDeps
  simp only [addFrontmatterDeps_eq]
  rw [foldl_deps_eq (fun f : FunctionRec => depsOfFrontmatter
    (extract_frontmatter (replaceImportsL f.content.data)))]
  rw [foldl_deps_eq (fun tu : ToolRec × Option UserT => depsOfFrontmatter
    (toolFrontmatter fs tools_dir tu.1 tu.2))]
  rw [← List.foldl_append]

theorem mem_foldl_setAdd :
    ∀ (l : List (List Char)) (acc : List (List Char)) (x : List Char),
      x ∈ l.foldl setAdd acc → x ∈ acc ∨ x ∈ l := by
  intro l
  induction l with
  | nil => intro acc x h; exact Or.inl h
  | cons a as ih =>
    intro acc x h
    rw [List.foldl_cons] at h
    rcases ih _ x h with h' | h'
    · unfold setAdd at h'
      by_cases hm : acc.contains a
      · rw [if_pos hm] at h'
        exact Or.inl h'
      · rw [if_neg hm] at h'
        rcases List.mem_append.mp h' with h'' | h''
        · exact Or.inl h''
        · rw [List.mem_singleton] at h''
          subst h''
          exact Or.inr (List.mem_cons_self _ _)
    · exact Or.inr (List.mem_cons_of_mem _ h')

theorem mem_depsOfFrontmatter {x : List Char}
    {fm : List (List Char × List Char)} (h : x ∈ depsOfFrontmatter fm) :
    (',' ∉ x) ∧ pyStrip x = x := by
  unfold depsOfFrontmatter at h
  cases hg : assocGet fm "requirements".data with
  | none =>
    rw [hg] at h
    simp at h
  | some r =>
    rw [hg] at h
    dsimp only at h
    by_cases hr : r.isEmpty = true
    · rw [if_pos hr] at h
      simp at h
    · rw [if_neg hr] at h
      obtain ⟨p, hp, rfl⟩ := List.mem_map.mp h
      exact ⟨not_mem_pyStrip (mem_pySplit_not_sep ',' r p hp),
        pyStrip_idem p⟩

theorem mem_amendedUnion_props (users : List UserT)
    (fs : String → Option String) (tools_dir : String)
    (fdb : List FunctionRec) (db : List ToolRec) :
    ∀ x ∈ amendedDependencyUnion users fs tools_dir fdb db,
      (',' ∉ x) ∧ pyStrip x = x := by
  intro x hx
  unfold amendedDependencyUnion dedupDeps at hx
  rcases mem_foldl_setAdd _ _ _ hx with h | h
  · simp at h
  · rcases List.mem_append.mp h with h' | h' <;>
    · obtain ⟨l, hl, hxl⟩ := List.mem_flatten.mp h'
      obtain ⟨item, _, rfl⟩ := List.mem_map.mp hl
      exact mem_depsOfFrontmatter hxl

/-- C9 (counterexample): a tool owned by a regular (non-admin) user
declares `requirements: foo`, yet the batch entry point never invokes the
installer — the claimed union across every tool is `\x7bfoo\x7d`. -/
theorem claim9_counterexample :
    install_tool_and_function_dependencies c9Users (fun _ => none)
      "/tools" [] [c9Tool] = none ∧
    claimedDependencyUnion c9Users (fun _ => none) "/tools" [] [c9Tool] =
      ["foo".data] := by
  constructor
  · rfl
  · have hri : replaceImportsL c9Tool.content.data = c9Tool.content.data :=
      replaceImportsL_eq_self _ (by decide) (by decide) (by decide)
        (by decide)
    unfold claimedDependencyUnion
    rw [show get_tools [c9Tool] c9Users =
      [(c9Tool, some ⟨"u", "user"⟩)] from rfl]
    rw [show (([(c9Tool, some (⟨"u", "user"⟩ : UserT))] :
            List (ToolRec × Option UserT)).map (fun tu =>
        depsOfFrontmatter
          (extract_frontmatter (replaceImportsL tu.1.content.data)))) =
      [depsOfFrontmatter
        (extract_frontmatter (replaceImportsL c9Tool.content.data))]
      from rfl]
    rw [hri]
    rfl

/-- C9 (amended): the batch entry point collects the comma-separated
requirements of the active functions, of ownerless `custom_` file-resident
tools, and of admin-owned tools only (tools owned by non-admin users are
skipped), deduplicates them, and invokes the package installer exactly
once with the nonempty entries of that set — and not at all when no
nonempty entry exists. -/
theorem claim9_amended (users : List UserT) (fs : String → Option String)
    (tools_dir : String) (fdb : List FunctionRec) (db : List ToolRec) :
    install_tool_and_function_dependencies users fs tools_dir fdb db =
      (if ((amendedDependencyUnion users fs tools_dir fdb db).filter
            (fun r => !r.isEmpty)).isEmpty then none
      else some ((amendedDependencyUnion users fs tools_dir fdb db).filter
            (fun r => !r.isEmpty))) := by
  rw [batch_eq_installer]
  have key : ∀ (u : List (List Char)),
      (∀ x ∈ u, (',' ∉ x) ∧ pyStrip x = x) →
      (if u.isEmpty then none
       else install_frontmatter_requirements (pyJoin ", ".data u)) =
      (if (u.filter (fun r => !r.isEmpty)).isEmpty then none
       else some (u.filter (fun r => !r.isEmpty))) := by
    intro u hu
    cases u with
    | nil => rfl
    | cons x us =>
      rw [if_neg (by simp)]
      have hjs := joinSplitStrip (x :: us) (fun z hz => (hu z hz).1)
        (fun z hz => (hu z hz).2)
      unfold install_frontmatter_requirements
      by_cases hre : (pyJoin ", ".data (x :: us)).isEmpty = true
      · rw [if_pos hre]
        have hxnil : x = [] ∧ us = [] := by
          cases us with
          | nil =>
            constructor
            · have : pyJoin ", ".data [x] = x := rfl
              rw [this] at hre
              exact List.isEmpty_iff.mp hre
            · rfl
          | cons y r =>
            exfalso
            have : pyJoin ", ".data (x :: y :: r) =
                x ++ ',' :: (' ' :: pyJoin [',', ' '] (y :: r)) := by
              show x ++ [',', ' '] ++ pyJoin [',', ' '] (y :: r) = _
              rw [List.append_assoc]
              rfl
            rw [this] at hre
            rw [List.isEmpty_iff] at hre
            simp at hre
        obtain ⟨rfl, rfl⟩ := hxnil
        rfl
      · rw [if_neg hre]
        dsimp only
        rw [hjs]

  exact key _ (mem_amendedUnion_props users fs tools_dir fdb db)

end OpenWebui
